import Mathlib

/-!
Verification development for the GetTheBear analytics core.

The Python sources embedded here are `analytics/calculation.py`
(`calculate_metrics`), `analytics/fetching.py` (`fetch_portfolio_data`,
the price-to-monthly-table aggregation pipeline) and
`analytics/caching.py` (`generate_cache_key`).  The package
`analytics/__init__.py` exports exactly these variants, so they are the
authoritative implementations (the older top-level `analytics.py` holds
near-identical earlier copies).

Numeric model: pandas/NumPy floats are modelled as exact rationals
extended with a NaN element (`PF`).  Overflow to infinity cannot occur
in exact rational arithmetic, and every division reachable in the
theorems below is guarded against a zero divisor by the source code
itself; the one place the model and IEEE semantics could part ways
(finite/0 giving a float infinity) is therefore never exercised by any
statement proved here, and `pfDiv` maps that case to NaN.  Real-valued
square roots and powers (used by the volatility and CAGR fields) are
modelled by executable rational approximations; every theorem below
depends only on the NaN-ness, the sign, or the guarded branch of those
quantities, never on their finite value.
-/

/-- A pandas/NumPy float value: an exact rational or NaN. -/
inductive PF where
  | num (q : ℚ)
  | nan
  deriving DecidableEq, Repr

instance : OfNat PF 0 := ⟨PF.num 0⟩
instance : OfNat PF 1 := ⟨PF.num 1⟩

/-- Is the value NaN (`pd.isna`)? -/
def pfIsNa : PF → Bool
  | PF.num _ => false
  | PF.nan => true

/-- The finite value, if any. -/
def pfToQ : PF → Option ℚ
  | PF.num q => some q
  | PF.nan => none

/-- NaN-propagating addition. -/
def pfAdd : PF → PF → PF
  | PF.num a, PF.num b => PF.num (a + b)
  | _, _ => PF.nan

/-- NaN-propagating subtraction. -/
def pfSub : PF → PF → PF
  | PF.num a, PF.num b => PF.num (a - b)
  | _, _ => PF.nan

/-- NaN-propagating multiplication. -/
def pfMul : PF → PF → PF
  | PF.num a, PF.num b => PF.num (a * b)
  | _, _ => PF.nan

/-- NaN-propagating division.  A zero divisor yields NaN in the model;
IEEE would give an infinity for a nonzero numerator, but every division
reachable in the theorems proved in this file carries a source-level
guard ruling the zero divisor out. -/
def pfDiv : PF → PF → PF
  | PF.num a, PF.num b => if b = 0 then PF.nan else PF.num (a / b)
  | _, _ => PF.nan

/-- Python `x != 0` on a float: NaN compares unequal to 0, so it is true. -/
def pfNe0 : PF → Bool
  | PF.num q => decide (q ≠ 0)
  | PF.nan => true

/-- Python `x > 0` on a float: false for NaN. -/
def pfGt0 : PF → Bool
  | PF.num q => decide (0 < q)
  | PF.nan => false

/-- Python `x < 0` on a float: false for NaN. -/
def pfLt0 : PF → Bool
  | PF.num q => decide (q < 0)
  | PF.nan => false

/-- `abs` on a float (NaN-propagating). -/
def pfAbs : PF → PF
  | PF.num q => PF.num |q|
  | PF.nan => PF.nan

/-- pandas `Series.min()`: skips NaN entries; NaN when no finite entry. -/
def pfMinL (xs : List PF) : PF :=
  match xs.filterMap pfToQ with
  | [] => PF.nan
  | v :: vs => PF.num (vs.foldl min v)

/-- pandas `Series.max()`: skips NaN entries; NaN when no finite entry. -/
def pfMaxL (xs : List PF) : PF :=
  match xs.filterMap pfToQ with
  | [] => PF.nan
  | v :: vs => PF.num (vs.foldl max v)

/-- pandas `Series.prod()`: the product of the finite entries (1 when none). -/
def pfProdL (xs : List PF) : PF :=
  PF.num ((xs.filterMap pfToQ).foldl (· * ·) 1)

/-- Newton iteration for the integer square root, with structural fuel
so the kernel can evaluate it. -/
def natSqrtGo : Nat → Nat → Nat → Nat
  | 0, _, g => g
  | fuel + 1, n, g =>
      let next := (g + n / g) / 2
      if next < g then natSqrtGo fuel n next else g

/-- Integer square root (the fuel `n` always suffices). -/
def natSqrt (n : Nat) : Nat := if n ≤ 1 then n else natSqrtGo n n (n / 2)

/-- Integer square root on `ℤ` (0 on negatives). -/
def intSqrt (z : ℤ) : ℤ := (natSqrt z.toNat : ℤ)

/-- Rational approximation of the real square root: the integer square
roots of numerator and denominator (exact on perfect squares).  No
theorem in this file depends on its finite value. -/
def ratSqrt (q : ℚ) : ℚ := mkRat (intSqrt q.num) (natSqrt q.den)

/-- Sample mean of a rational list (caller ensures nonempty). -/
def sampleMean (v : List ℚ) : ℚ := v.sum / v.length

/-- Sample variance with `ddof=1` (caller ensures length at least 2). -/
def sampleVar (v : List ℚ) : ℚ :=
  let m := sampleMean v
  (v.map (fun x => (x - m) ^ 2)).sum / ((v.length : ℚ) - 1)

/-- pandas `Series.std()` (`ddof=1`, skipna): NaN when fewer than two
finite entries; otherwise a rational approximation (`ratSqrt`) of the
sample standard deviation.  The theorems below depend only on the
NaN-ness and sign of this quantity. -/
def pfStd (xs : List PF) : PF :=
  let v := xs.filterMap pfToQ
  if v.length < 2 then PF.nan else PF.num (ratSqrt (sampleVar v))

/-- Rational approximation of `math.sqrt(12)` used for annualization. -/
def sqrtTwelve : ℚ := ratSqrt 12

/-- Rational stand-in for real exponentiation `b ** e` on nonnegative
finite bases: exact integer power when the exponent is integral, else a
first-order approximation.  Only its finiteness is ever used. -/
def ratPowA (b e : ℚ) : ℚ :=
  if e.den = 1 then b ^ e.num else 1 + e * (b - 1)

/-- NumPy float `**`: NaN-propagating, and NaN on a negative base with a
non-integral exponent (NumPy emits NaN there). -/
def pfPow : PF → PF → PF
  | PF.num b, PF.num e =>
      if b < 0 ∧ e.den ≠ 1 then PF.nan else PF.num (ratPowA b e)
  | _, _ => PF.nan

/-- pandas `Series.cummax()` (skipna): NaN entries stay NaN and do not
reset the running maximum. -/
def pfCummaxGo (cur : Option ℚ) : List PF → List PF
  | [] => []
  | PF.nan :: xs => PF.nan :: pfCummaxGo cur xs
  | PF.num q :: xs =>
      let m := match cur with
        | none => q
        | some c => max c q
      PF.num m :: pfCummaxGo (some m) xs

/-- pandas `Series.cummax()` on a column. -/
def pfCummax (xs : List PF) : List PF := pfCummaxGo none xs

/-- pandas `Series.pct_change()`: NaN first entry, then successive
ratios minus one (NaN-propagating, NaN on a zero previous value). -/
def pfPctChange (xs : List PF) : List PF :=
  match xs with
  | [] => []
  | _ :: tl => PF.nan :: (xs.zipWith (fun a b => pfSub (pfDiv b a) 1) tl)

/-- pandas `Series.fillna(0)`. -/
def pfFillna0 (xs : List PF) : List PF :=
  xs.map (fun x => if pfIsNa x then PF.num 0 else x)

/-! ### Python fixed-point number formatting

`f"{x:.2f}"` renders the value rounded to two decimals (round half to
even), zero-padded fraction, with a leading minus sign when the value is
negative (including `-0.00`); NaN renders as `nan`.  `f"{x:.2%}"` is the
same on `x * 100` with a trailing percent sign. -/

/-- The decimal digit character for `n % 10`. -/
def digitChar (n : Nat) : Char := Char.ofNat (48 + n % 10)

/-- Decimal digit string of a natural number, with structural fuel so
that the kernel can evaluate it (the fuel `n + 1` always suffices). -/
def natCharsAux : Nat → Nat → List Char
  | 0, _ => []
  | fuel + 1, n =>
      if n < 10 then [digitChar n]
      else natCharsAux fuel (n / 10) ++ [digitChar (n % 10)]

/-- Decimal digit string of a natural number. -/
def natChars (n : Nat) : List Char := natCharsAux (n + 1) n

/-- Floor of a rational, written out so the kernel can evaluate it. -/
def ratFloor (x : ℚ) : ℤ := Int.fdiv x.num x.den

/-- Round a rational to the nearest integer, half to even. -/
def roundHalfEven (x : ℚ) : ℤ :=
  let f := ratFloor x
  let r := x - f
  if r < 1 / 2 then f
  else if 1 / 2 < r then f + 1
  else if f % 2 = 0 then f else f + 1

/-- Two zero-padded digits for `m < 100`. -/
def twoFracChars (m : Nat) : List Char := [digitChar (m / 10), digitChar (m % 10)]

/-- Characters of `f"{v:.2f}"` for a finite value. -/
def fmt2Chars (v : ℚ) : List Char :=
  let n := roundHalfEven (v * 100)
  let a := n.natAbs
  (if n < 0 ∨ (n = 0 ∧ v < 0) then ['-'] else []) ++
    natChars (a / 100) ++ '.' :: twoFracChars (a % 100)

/-- Characters of `f"{v:.1f}"` for a finite value. -/
def fmt1Chars (v : ℚ) : List Char :=
  let n := roundHalfEven (v * 10)
  let a := n.natAbs
  (if n < 0 ∨ (n = 0 ∧ v < 0) then ['-'] else []) ++
    natChars (a / 10) ++ '.' :: [digitChar (a % 10)]

/-- `f"{x:.2%}"` on a float. -/
def fmtPercent : PF → String
  | PF.num q => ⟨fmt2Chars (q * 100) ++ ['%']⟩
  | PF.nan => "nan%"

/-- `f"{x:.2f}"` on a float. -/
def fmtF2 : PF → String
  | PF.num q => ⟨fmt2Chars q⟩
  | PF.nan => "nan"

/-- `f"{x:.1f}"` on a float. -/
def fmtF1 : PF → String
  | PF.num q => ⟨fmt1Chars q⟩
  | PF.nan => "nan"

/-! ### A decidable recognizer for finite fixed-point number strings -/

/-- Consume a maximal run of digit characters. -/
def eatDigitsMore : List Char → List Char
  | [] => []
  | c :: cs => if c.isDigit then eatDigitsMore cs else c :: cs

/-- Consume one or more digits; `none` when the input does not start
with a digit. -/
def eatDigits1 : List Char → Option (List Char)
  | [] => none
  | c :: cs => if c.isDigit then some (eatDigitsMore cs) else none

/-- Drop one leading minus sign. -/
def stripMinus : List Char → List Char
  | [] => []
  | c :: rest => if c = '-' then rest else c :: rest

/-- After the integer part: a dot, one or more digits, then the end or
a single percent sign. -/
def afterIntPart : List Char → Bool
  | [] => false
  | c :: r2 =>
      if c = '.' then
        match eatDigits1 r2 with
        | none => false
        | some r3 => decide (r3 = [] ∨ r3 = ['%'])
      else false

/-- Recognizer for `-?digits.digits%?`: exactly the strings produced by
the fixed-point formatters above on finite values. -/
def isFiniteNumChars (cs : List Char) : Bool :=
  match eatDigits1 (stripMinus cs) with
  | none => false
  | some r1 => afterIntPart r1

/-- String-level recognizer for a finite formatted number. -/
def isFiniteNumStr (s : String) : Bool := isFiniteNumChars s.data

/-- A panel field value allowed by the no-NaN-leak policy: the `N/A`
sentinel or a finite formatted number string. -/
def GoodField (s : String) : Prop := s = "N/A" ∨ isFiniteNumStr s = true

theorem digitChar_isDigit (n : Nat) : (digitChar n).isDigit = true := by
  have h : n % 10 < 10 := Nat.mod_lt _ (by norm_num)
  unfold digitChar
  interval_cases h2 : (n % 10) <;> rfl

theorem digitChar_ne_minus (n : Nat) : digitChar n ≠ '-' := by
  intro h
  have := digitChar_isDigit n
  rw [h] at this
  exact absurd this (by decide)

theorem natCharsAux_ne_nil (fuel n : Nat) : natCharsAux (fuel + 1) n ≠ [] := by
  unfold natCharsAux
  split
  · simp
  · simp

theorem natChars_ne_nil (n : Nat) : natChars n ≠ [] := natCharsAux_ne_nil n n

theorem natCharsAux_digits (fuel : Nat) :
    ∀ n, ∀ c ∈ natCharsAux fuel n, c.isDigit = true := by
  induction fuel with
  | zero => intro n c hc; cases hc
  | succ fuel ih =>
    intro n c hc
    unfold natCharsAux at hc
    split at hc
    · rw [List.mem_singleton] at hc
      subst hc
      exact digitChar_isDigit n
    · rw [List.mem_append] at hc
      rcases hc with hc | hc
      · exact ih (n / 10) c hc
      · rw [List.mem_singleton] at hc
        subst hc
        exact digitChar_isDigit _

theorem natChars_digits (n : Nat) : ∀ c ∈ natChars n, c.isDigit = true :=
  natCharsAux_digits (n + 1) n

theorem eatDigitsMore_append (l r : List Char)
    (hl : ∀ c ∈ l, c.isDigit = true)
    (hr : ∀ c cs, r = c :: cs → c.isDigit = false) :
    eatDigitsMore (l ++ r) = r := by
  induction l with
  | nil =>
    cases r with
    | nil => rfl
    | cons c cs =>
      simp only [List.nil_append, eatDigitsMore]
      rw [hr c cs rfl]
      simp
  | cons c l ih =>
    simp only [List.cons_append, eatDigitsMore]
    rw [hl c (by simp)]
    simp only [if_true]
    exact ih (fun d hd => hl d (by simp [hd]))

theorem eatDigits1_append (l r : List Char) (hne : l ≠ [])
    (hl : ∀ c ∈ l, c.isDigit = true)
    (hr : ∀ c cs, r = c :: cs → c.isDigit = false) :
    eatDigits1 (l ++ r) = some r := by
  cases l with
  | nil => exact absurd rfl hne
  | cons c l =>
    simp only [List.cons_append, eatDigits1]
    rw [hl c (by simp)]
    simp only [if_true, Option.some.injEq]
    exact eatDigitsMore_append l r (fun d hd => hl d (by simp [hd])) hr

theorem stripMinus_minus (r : List Char) : stripMinus ('-' :: r) = r := by
  simp [stripMinus]

theorem stripMinus_cons_of_digit (c : Char) (cs : List Char)
    (h : c.isDigit = true) : stripMinus (c :: cs) = c :: cs := by
  simp only [stripMinus]
  rw [if_neg]
  intro h2
  subst h2
  exact absurd h (by decide)

/-- The core recognizer lemma: any string of the shape
`sign ++ digits ++ . ++ digits ++ tail` with `tail` empty or a percent
sign is accepted. -/
theorem isFiniteNumChars_shape (sgn : List Char) (i : Nat) (frac : List Char)
    (tl : List Char)
    (hs : sgn = [] ∨ sgn = ['-'])
    (hfrac : frac ≠ []) (hfd : ∀ c ∈ frac, c.isDigit = true)
    (htl : tl = [] ∨ tl = ['%']) :
    isFiniteNumChars (sgn ++ natChars i ++ '.' :: (frac ++ tl)) = true := by
  have hdot : ∀ (c : Char) (cs : List Char),
      ('.' :: (frac ++ tl)) = c :: cs → c.isDigit = false := by
    intro c cs h
    cases h
    decide
  have htail : ∀ (c : Char) (cs : List Char), tl = c :: cs → c.isDigit = false := by
    intro c cs h
    rcases htl with h2 | h2 <;> rw [h2] at h
    · cases h
    · cases h
      decide
  have hstrip : stripMinus (sgn ++ natChars i ++ '.' :: (frac ++ tl)) =
      natChars i ++ '.' :: (frac ++ tl) := by
    rcases hs with h | h <;> subst h
    · simp only [List.nil_append]
      cases hx : natChars i with
      | nil => exact absurd hx (natChars_ne_nil i)
      | cons a b =>
        rw [List.cons_append]
        exact stripMinus_cons_of_digit a _ (natChars_digits i a (by rw [hx]; simp))
    · simp only [List.cons_append]
      exact stripMinus_minus _
  unfold isFiniteNumChars
  rw [hstrip, eatDigits1_append _ _ (natChars_ne_nil i) (natChars_digits i) hdot]
  simp only [afterIntPart, if_true]
  rw [eatDigits1_append frac tl hfrac hfd htail]
  rcases htl with h | h <;> subst h <;> simp

theorem twoFracChars_ne_nil (m : Nat) : twoFracChars m ≠ [] := by
  simp [twoFracChars]

theorem twoFracChars_digits (m : Nat) : ∀ c ∈ twoFracChars m, c.isDigit = true := by
  intro c hc
  simp only [twoFracChars, List.mem_cons, List.mem_singleton] at hc
  rcases hc with h | h | h
  · subst h; exact digitChar_isDigit _
  · subst h; exact digitChar_isDigit _
  · cases h

theorem signList_ok (P : Prop) [Decidable P] :
    (if P then ['-'] else []) = [] ∨ (if P then ['-'] else []) = ['-'] := by
  split
  · right; rfl
  · left; rfl

theorem isFiniteNumChars_shape0 (sgn : List Char) (i : Nat) (frac : List Char)
    (hs : sgn = [] ∨ sgn = ['-'])
    (hfrac : frac ≠ []) (hfd : ∀ c ∈ frac, c.isDigit = true) :
    isFiniteNumChars (sgn ++ natChars i ++ '.' :: frac) = true := by
  have h := isFiniteNumChars_shape sgn i frac [] hs hfrac hfd (Or.inl rfl)
  simpa using h

theorem isFiniteNumChars_shapeP (sgn : List Char) (i : Nat) (frac : List Char)
    (hs : sgn = [] ∨ sgn = ['-'])
    (hfrac : frac ≠ []) (hfd : ∀ c ∈ frac, c.isDigit = true) :
    isFiniteNumChars ((sgn ++ natChars i ++ '.' :: frac) ++ ['%']) = true := by
  have h := isFiniteNumChars_shape sgn i frac ['%'] hs hfrac hfd (Or.inr rfl)
  simpa [List.append_assoc] using h

theorem isFiniteNumChars_fmt2 (v : ℚ) : isFiniteNumChars (fmt2Chars v) = true := by
  simp only [fmt2Chars]
  exact isFiniteNumChars_shape0 _ _ _ (signList_ok _) (twoFracChars_ne_nil _)
    (twoFracChars_digits _)

theorem isFiniteNumChars_fmt2P (v : ℚ) :
    isFiniteNumChars (fmt2Chars v ++ ['%']) = true := by
  simp only [fmt2Chars]
  exact isFiniteNumChars_shapeP _ _ _ (signList_ok _) (twoFracChars_ne_nil _)
    (twoFracChars_digits _)

theorem isFiniteNumChars_fmt1 (v : ℚ) : isFiniteNumChars (fmt1Chars v) = true := by
  simp only [fmt1Chars]
  refine isFiniteNumChars_shape0 _ _ _ (signList_ok _) (by simp) ?_
  intro c hc
  rw [List.mem_singleton] at hc
  subst hc
  exact digitChar_isDigit _

theorem goodField_percent (x : PF) :
    GoodField (if pfIsNa x = true then "N/A" else fmtPercent x) := by
  cases x with
  | num q =>
    right
    exact isFiniteNumChars_fmt2P (q * 100)
  | nan => left; rfl

theorem goodField_f2 (x : PF) :
    GoodField (if pfIsNa x = true then "N/A" else fmtF2 x) := by
  cases x with
  | num q =>
    right
    exact isFiniteNumChars_fmt2 q
  | nan => left; rfl

theorem goodField_fmtF1_num (q : ℚ) : GoodField (fmtF1 (PF.num q)) := by
  right
  exact isFiniteNumChars_fmt1 q

/-! ### Dates and the monthly DataFrame model

`calculate_metrics` consumes the monthly table produced by
`fetch_portfolio_data`: a DatetimeIndex plus the columns
`Portfolio Value`, `Monthly Return` and `Drawdown`.  The model keeps the
index as a list of dates and each column as a list of floats; the two
optional columns model `in df_monthly.columns` membership (the code
accesses `Portfolio Value` unconditionally, so that column is always
present).  `pd.to_datetime` on an already-datetime index is the
identity, which is how the model treats it. -/

/-- A calendar date. -/
structure MDate where
  y : Int
  m : Nat
  d : Nat
  deriving DecidableEq, Repr

/-- Civil (proleptic Gregorian) day number, days since 1970-01-01,
following the standard days-from-civil algorithm; date subtraction in
pandas (`.days`) is a difference of these. -/
def MDate.dayNum (dt : MDate) : Int :=
  let yAdj : Int := if dt.m ≤ 2 then dt.y - 1 else dt.y
  let era : Int := Int.fdiv yAdj 400
  let yoe : Int := yAdj - era * 400
  let mp : Nat := (dt.m + 9) % 12
  let doy : Int := (153 * (mp : Int) + 2) / 5 + (dt.d : Int) - 1
  let doe : Int := yoe * 365 + yoe / 4 - yoe / 100 + doy
  era * 146097 + doe - 719468

/-- Binary minimum of two dates (by instant). -/
def minDate (a b : MDate) : MDate := if b.dayNum < a.dayNum then b else a

/-- Binary maximum of two dates (by instant). -/
def maxDate (a b : MDate) : MDate := if a.dayNum < b.dayNum then b else a

/-- `index.min()` over a date list. -/
def dateMinL : List MDate → Option MDate
  | [] => none
  | a :: rest => some (rest.foldl minDate a)

/-- `index.max()` over a date list. -/
def dateMaxL : List MDate → Option MDate
  | [] => none
  | a :: rest => some (rest.foldl maxDate a)

/-- The monthly table: index plus `Portfolio Value` (always present),
`Monthly Return` and `Drawdown` (present when `some`). -/
structure DFrame where
  dates : List MDate
  pv : List PF
  mr : Option (List PF)
  dd : Option (List PF)
  deriving DecidableEq, Repr

/-- A Python value appearing in the metrics dict: a string or an int
(the short-circuit panel stores the int `0` under `years`). -/
inductive PyVal where
  | pstr (s : String)
  | pint (n : Int)
  deriving DecidableEq, Repr

/-- The metrics panel returned by `calculate_metrics`. -/
structure Metrics where
  cagr : String
  volatility : String
  sharpe_ratio : String
  max_drawdown : String
  best_month : String
  worst_month : String
  total_return : String
  years : PyVal
  sortino_ratio : String
  calmar_ratio : String
  max_drawdown_duration : String
  rolling_volatility : String
  rolling_return : String
  annual_returns : List (Int × String)
  deriving DecidableEq, Repr

/-- The short-circuit panel (`analytics/calculation.py`, lines 10-17):
note `years` is the int `0` and `annual_returns` the empty dict. -/
def naPanel : Metrics :=
  { cagr := "N/A", volatility := "N/A", sharpe_ratio := "N/A",
    max_drawdown := "N/A", best_month := "N/A", worst_month := "N/A",
    total_return := "N/A", years := PyVal.pint 0, sortino_ratio := "N/A",
    calmar_ratio := "N/A", max_drawdown_duration := "N/A",
    rolling_volatility := "N/A", rolling_return := "N/A",
    annual_returns := [] }

/-- Insertion into a sorted integer list. -/
def insertIntSorted (x : Int) : List Int → List Int
  | [] => [x]
  | a :: rest => if x ≤ a then x :: a :: rest else a :: insertIntSorted x rest

/-- Insertion sort for integers. -/
def sortInts : List Int → List Int
  | [] => []
  | a :: rest => insertIntSorted a (sortInts rest)

/-- Remove adjacent duplicates (applied after sorting). -/
def dedupAdj : List Int → List Int
  | [] => []
  | [a] => [a]
  | a :: b :: rest => if a = b then dedupAdj (b :: rest) else a :: dedupAdj (b :: rest)

/-- The distinct group keys of a pandas `groupby`, in ascending order. -/
def sortedDistinct (ys : List Int) : List Int := dedupAdj (sortInts ys)

/-- `DataFrame.iloc[-2]` of a prefix, if it exists. -/
def secondLast (l : List (MDate × PF)) : Option (MDate × PF) := l.dropLast.getLast?

/-- The `annual_returns` computation of `calculate_metrics`
(`analytics/calculation.py`, lines 127-154): group the rows after the
synthetic first row by calendar year; for each year take
`Portfolio Value` of the last row over `Portfolio Value` of the row just
before the first row of that year (via `df.loc[:year_start].iloc[-2]`,
falling back to `1.0` on IndexError), minus one.  Label slicing is
modelled as a date filter, which matches pandas on the sorted indexes
the function is used with. -/
def annualEntry (rows calcRows : List (MDate × PF)) (yr : Int) :
    Option (Int × String) :=
  match calcRows.filter (fun r => r.1.y = yr) with
  | [] => none
  | g1 :: gs =>
    let yStart := (gs.map (fun r => r.1)).foldl minDate g1.1
    let pre := rows.filter (fun r => r.1.dayNum ≤ yStart.dayNum)
    let startVal : PF := match secondLast pre with
      | some r => r.2
      | none => PF.num 1
    let endVal : PF := ((g1 :: gs).getLast (by simp)).2
    if pfNe0 startVal = true ∧ pfIsNa endVal = false then
      some (yr, fmtPercent (pfSub (pfDiv endVal startVal) 1))
    else
      some (yr, "N/A")

/-- The full `annual_returns` map: one entry per distinct year of the
non-synthetic rows, in ascending year order. -/
def annualReturns (dates : List MDate) (pv : List PF) : List (Int × String) :=
  let rows := dates.zip pv
  let calcRows := rows.drop 1
  (sortedDistinct (calcRows.map (fun r => r.1.y))).filterMap
    (annualEntry rows calcRows)

/-- One row of the max-drawdown-duration loop
(`analytics/calculation.py`, lines 100-114).  State: accumulated
maximum, current run length, in-drawdown flag. -/
def ddStep (st : Nat × Nat × Bool) (x : PF) : Nat × Nat × Bool :=
  if pfIsNa x = false ∧ pfLt0 x = true then
    if st.2.2 = false then (st.1, 1, true) else (st.1, st.2.1 + 1, true)
  else
    if st.2.2 = true then (max st.1 st.2.1, 0, false) else st

/-- The drawdown-duration loop over the `Drawdown` column, including the
final still-in-drawdown check (lines 116-117). -/
def ddDuration (dds : List PF) : Nat :=
  let st := dds.foldl ddStep (0, 0, false)
  if st.2.2 then max st.1 st.2.1 else st.1

/-- `calculate_metrics` from `analytics/calculation.py` (the variant the
`analytics` package exports).  The input is `None` or a monthly table;
the output pairs the returned metrics dict with the table as it stands
after the call, making the in-place column additions observable. -/
def calculate_metrics : Option DFrame → Metrics × Option DFrame
  | none => (naPanel, none)
  | some df =>
    if df.dates.length < 2 then (naPanel, some df) else
    let startD := (dateMinL df.dates).getD ⟨1970, 1, 1⟩
    let endD := (dateMaxL df.dates).getD ⟨1970, 1, 1⟩
    let years0 : ℚ :=
      if startD.dayNum = endD.dayNum then 0
      else ((endD.dayNum - startD.dayNum : Int) : ℚ) / (1461 / 4)
    let years : ℚ := if years0 ≤ 0 then 0 else years0
    let start_value : PF := df.pv.headD PF.nan
    let end_value : PF := df.pv.getLastD PF.nan
    let total_return : PF :=
      if pfNe0 start_value = true then pfSub (pfDiv end_value start_value) 1
      else PF.num 0
    let cagr : PF :=
      if 0 < years then pfSub (pfPow (pfAdd 1 total_return) (PF.num (1 / years))) 1
      else PF.num 0
    let mrCol : List PF := match df.mr with
      | some m => m
      | none => pfFillna0 (pfPctChange df.pv)
    let df1 : DFrame := { df with mr := some mrCol }
    let monthly_returns := mrCol.drop 1
    let volatility : PF :=
      if monthly_returns ≠ [] then pfMul (pfStd monthly_returns) (PF.num sqrtTwelve)
      else PF.num 0
    let sharpe : PF :=
      if pfGt0 volatility = true then pfDiv cagr volatility else PF.num 0
    let ddRes : List PF × PF := match df.dd with
      | none =>
        let ddC := (df.pv.zip (pfCummax df.pv)).map (fun p => pfSub (pfDiv p.1 p.2) 1)
        (ddC, pfMinL ddC)
      | some ddC =>
        (ddC, if pfIsNa (pfMinL ddC) = false then pfMinL ddC else PF.num 0)
    let ddCol := ddRes.1
    let max_drawdown := ddRes.2
    let df2 : DFrame := { df1 with dd := some ddCol }
    let best_month := if monthly_returns ≠ [] then pfMaxL monthly_returns else PF.num 0
    let worst_month := if monthly_returns ≠ [] then pfMinL monthly_returns else PF.num 0
    let downside := monthly_returns.filter (fun x => pfLt0 x = true)
    let downside_deviation :=
      if downside ≠ [] then pfMul (pfStd downside) (PF.num sqrtTwelve) else PF.num 0
    let sortino :=
      if pfGt0 downside_deviation = true then pfDiv cagr downside_deviation
      else PF.num 0
    let calmar :=
      if pfLt0 max_drawdown = true then pfDiv cagr (pfAbs max_drawdown) else PF.num 0
    let mddDur := ddDuration ddCol
    let mddDurStr : String :=
      if 0 < mddDur then ⟨natChars mddDur ++ (' ' :: "months".data)⟩ else "0 months"
    let rolling_volatility :=
      if 12 ≤ monthly_returns.length then
        pfMul (pfStd (monthly_returns.drop (monthly_returns.length - 12)))
          (PF.num sqrtTwelve)
      else PF.num 0
    let rolling_return :=
      if 12 ≤ monthly_returns.length then
        pfSub (pfProdL ((monthly_returns.drop (monthly_returns.length - 12)).map
          (fun x => pfAdd 1 x))) 1
      else PF.num 0
    let annual := annualReturns df2.dates df2.pv
    ({ cagr := if pfIsNa cagr = true then "N/A" else fmtPercent cagr,
       volatility := if pfIsNa volatility = true then "N/A" else fmtPercent volatility,
       sharpe_ratio := if pfIsNa sharpe = true then "N/A" else fmtF2 sharpe,
       max_drawdown :=
         if pfIsNa max_drawdown = true then "N/A" else fmtPercent max_drawdown,
       best_month := if pfIsNa best_month = true then "N/A" else fmtPercent best_month,
       worst_month :=
         if pfIsNa worst_month = true then "N/A" else fmtPercent worst_month,
       total_return :=
         if pfIsNa total_return = true then "N/A" else fmtPercent total_return,
       years := PyVal.pstr (fmtF1 (PF.num years)),
       sortino_ratio := if pfIsNa sortino = true then "N/A" else fmtF2 sortino,
       calmar_ratio := if pfIsNa calmar = true then "N/A" else fmtF2 calmar,
       max_drawdown_duration := mddDurStr,
       rolling_volatility :=
         if pfIsNa rolling_volatility = true then "N/A"
         else fmtPercent rolling_volatility,
       rolling_return :=
         if pfIsNa rolling_return = true then "N/A" else fmtPercent rolling_return,
       annual_returns := annual }, some df2)

/-! ### The fetch/aggregation pipeline (`analytics/fetching.py`)

`fetch_portfolio_data` mixes the external collaborators (Flask config,
the SQL cache, `yfinance`) with the pure aggregation pipeline that is
this core.  The model takes the collaborator as a function
`quote : String → Option (List ℚ)` giving, per cleaned ticker, the
month-end `Close` series over the requested range (`None` when
`yf.download` returns an empty frame or raises), already resampled to
month ends — `resample("ME").last()` is date bookkeeping on the shared
monthly grid.  The cache branch is disabled configuration (no database
URI) in the model.  All surviving series share the common monthly grid,
so they have a common length, and requests are modelled with distinct
cleaned tickers (duplicate columns would overwrite in pandas). -/

/-- `ticker.split(" (")[0].strip()` — strip an optional benchmark
suffix. -/
def cleanTicker (s : String) : String := ((s.splitOn " (").headD "").trim

/-- The download loop (`analytics/fetching.py`, lines 63-79): returns
`(error_tickers, valid_tickers)`; errors keep the original spelling,
valid entries are cleaned. -/
def classifyTickers (quote : String → Option (List ℚ)) :
    List String → List String × List String
  | [] => ([], [])
  | t :: ts =>
    let rest := classifyTickers quote ts
    let c := cleanTicker t
    if c = "" then (t :: rest.1, rest.2)
    else
      match quote c with
      | none => (t :: rest.1, rest.2)
      | some _ => (rest.1, c :: rest.2)

/-- Last-wins association lookup, matching a Python dict comprehension
built from `zip(tickers, weights)`. -/
def lookupLast (k : String) (ps : List (String × ℚ)) : Option ℚ :=
  (ps.reverse.find? (fun p => p.1 = k)).map (fun p => p.2)

/-- `original_ticker_map.get(vt, 0)` where the map is
`{t.split(" (")[0].strip(): w for t, w in zip(tickers, weights)}`. -/
def tickerMapGet (tickers : List String) (weights : List ℚ) (k : String) : ℚ :=
  match lookupLast k ((tickers.map cleanTicker).zip weights) with
  | some w => w
  | none => 0

/-- The weight-resolution step (`analytics/fetching.py`, lines 85-92):
keep the weights of surviving tickers, then divide by their sum when it
is positive and substitute 0 for every weight otherwise.  No exception
is raised on a zero remaining sum. -/
def normalizeWeights (tickers : List String) (weights : List ℚ)
    (valids : List String) : List ℚ :=
  let valid_weights := valids.map (tickerMapGet tickers weights)
  let total := valid_weights.sum
  valid_weights.map (fun w => if 0 < total then w / total else 0)

/-- Per-column monthly returns: `pct_change()` followed by `dropna()`,
which removes exactly the all-NaN first row on the shared grid. -/
def qPctChange (ps : List ℚ) : List ℚ :=
  ps.zipWith (fun a b => b / a - 1) ps.tail

/-- Row `i` of `(df_monthly_returns * weights).sum(axis=1)`. -/
def weightedSumAt (retCols : List (List ℚ)) (ws : List ℚ) (i : Nat) : ℚ :=
  ((retCols.zip ws).map (fun p => p.1.getD i 0 * p.2)).sum

/-- The weighted portfolio return series over `m` return rows. -/
def portfolioReturns (retCols : List (List ℚ)) (ws : List ℚ) (m : Nat) : List ℚ :=
  (List.range m).map (weightedSumAt retCols ws)

/-- `(1 + r).cumprod()`. -/
def cumprodQ (acc : ℚ) : List ℚ → List ℚ
  | [] => []
  | r :: rs => (acc * (1 + r)) :: cumprodQ (acc * (1 + r)) rs

/-- The `Portfolio Value` column (lines 117-132): the cumulative curve
reindexed onto the monthly grid (NaN at the first month), a synthetic
initial row of 1.0 prepended one day earlier, then
`ffill().fillna(1.0)`: the list `1, 1, cumprod`. -/
def pvColumn (rets : List ℚ) : List ℚ := 1 :: 1 :: cumprodQ 1 rets

/-- `cummax` over exact rationals (the `Portfolio Value` column contains
no NaN by construction). -/
def cummaxQ (acc : ℚ) : List ℚ → List ℚ
  | [] => []
  | x :: xs => max acc x :: cummaxQ (max acc x) xs

/-- The `Drawdown` column (lines 136-137): `pv / pv.cummax() - 1`. -/
def drawdownColumn (pv : List ℚ) : List ℚ :=
  match pv with
  | [] => []
  | x :: xs => (x :: xs).zipWith (fun v m => v / m - 1) (cummaxQ x (x :: xs))

/-- Population covariance sum `Σ (x-mean x)(y-mean y)` over paired
entries (the `n` normalization cancels in a Pearson ratio). -/
def covSum (x y : List ℚ) : ℚ :=
  let mx := sampleMean x
  let my := sampleMean y
  ((x.zip y).map (fun p => (p.1 - mx) * (p.2 - my))).sum

/-- One Pearson correlation entry, rounded to 4 decimals
(`correlation_matrix.round(4)`); NaN when either column has zero
variance (0/0 in floats).  The square root is exact on the diagonal
(`ratSqrt` of a perfect square), elsewhere a rational approximation
whose value no theorem depends on. -/
def corrEntry (x y : List ℚ) : PF :=
  let vxy := covSum x x * covSum y y
  if vxy = 0 then PF.nan
  else PF.num ((roundHalfEven (covSum x y / ratSqrt vxy * 10000) : ℤ) / 10000)

/-- `df_monthly_returns.corr().values` as a list of rows. -/
def corrMatrix (retCols : List (List ℚ)) : List (List PF) :=
  retCols.map (fun c1 => retCols.map (fun c2 => corrEntry c1 c2))

/-- The pure output of `fetch_portfolio_data`: the `Portfolio Value` and
`Drawdown` columns of the returned monthly table, the correlation
payload, and the error-ticker list. -/
structure AggOut where
  pv : List ℚ
  drawdown : List ℚ
  corr : Option (List String × List (List PF))
  errors : List String
  deriving Repr, DecidableEq

/-- `fetch_portfolio_data` (`analytics/fetching.py`, lines 57-163) with
the cache disabled: classify tickers, return `None` when nothing was
fetched (line 81) or when the fetched frame has no rows (line 97, after
which `resample` keeps it empty), renormalize surviving weights, build
returns, value curve, drawdown and the correlation payload.  The
correlation frame is empty only when it has no columns, so on the
success path it is always present. -/
def fetch_portfolio_data (quote : String → Option (List ℚ))
    (tickers : List String) (weights : List ℚ) : Option AggOut :=
  let cls := classifyTickers quote tickers
  let error_tickers := cls.1
  let valids := cls.2
  if valids = [] then none
  else
    let cols := valids.map (fun v => (quote v).getD [])
    let n := (cols.headD []).length
    if n = 0 then none
    else
      let ws := normalizeWeights tickers weights valids
      let retCols := cols.map qPctChange
      let rets := portfolioReturns retCols ws (n - 1)
      let pv := pvColumn rets
      let dd := drawdownColumn pv
      let corr :=
        if retCols = [] then none
        else some (valids, corrMatrix retCols)
      some { pv := pv, drawdown := dd, corr := corr, errors := error_tickers }

/-! ### Cache keys (`analytics/caching.py`)

`generate_cache_key(prefix, params)` serializes the params dict with
`json.dumps(params, sort_keys=True)`, prepends `prefix + ":"`, and
returns the SHA-256 hex digest of the UTF-8 bytes.  The JSON value model
covers the value shapes used by the callers (strings, numbers, arrays);
numeric rendering approximates float `repr`, which the key-ordering
property proved about this function does not depend on.  SHA-256 itself
(the `hashlib` collaborator) is implemented below over `Nat` words per
FIPS 180-4. -/

/-- UTF-8 encoding of one character. -/
def utf8Bytes (c : Char) : List Nat :=
  let n := c.toNat
  if n < 128 then [n]
  else if n < 2048 then [192 + n / 64, 128 + n % 64]
  else if n < 65536 then [224 + n / 4096, 128 + (n / 64) % 64, 128 + n % 64]
  else [240 + n / 262144, 128 + (n / 4096) % 64, 128 + (n / 64) % 64, 128 + n % 64]

/-- UTF-8 bytes of a string (`s.encode("utf-8")`). -/
def strBytes (s : String) : List Nat := (s.data.map utf8Bytes).flatten

/-- 32-bit right rotation. -/
def rotr32 (n x : Nat) : Nat :=
  ((x >>> n) ||| (x <<< (32 - n))) % 4294967296

/-- 32-bit modular addition. -/
def add32 (a b : Nat) : Nat := (a + b) % 4294967296

/-- 32-bit complement (inputs are below `2 ^ 32`). -/
def notW (x : Nat) : Nat := 4294967295 - x

/-- SHA-256 `Ch`. -/
def chW (x y z : Nat) : Nat := (x &&& y) ^^^ (notW x &&& z)

/-- SHA-256 `Maj`. -/
def majW (x y z : Nat) : Nat := (x &&& y) ^^^ (x &&& z) ^^^ (y &&& z)

/-- SHA-256 `Σ0`. -/
def bsig0 (x : Nat) : Nat := rotr32 2 x ^^^ rotr32 13 x ^^^ rotr32 22 x

/-- SHA-256 `Σ1`. -/
def bsig1 (x : Nat) : Nat := rotr32 6 x ^^^ rotr32 11 x ^^^ rotr32 25 x

/-- SHA-256 `σ0`. -/
def ssig0 (x : Nat) : Nat := rotr32 7 x ^^^ rotr32 18 x ^^^ (x >>> 3)

/-- SHA-256 `σ1`. -/
def ssig1 (x : Nat) : Nat := rotr32 17 x ^^^ rotr32 19 x ^^^ (x >>> 10)

/-- SHA-256 round constants. -/
def K256 : List Nat := [1116352408, 1899447441, 3049323471, 3921009573, 961987163, 1508970993, 2453635748, 2870763221, 3624381080, 310598401, 607225278, 1426881987, 1925078388, 2162078206, 2614888103, 3248222580, 3835390401, 4022224774, 264347078, 604807628, 770255983, 1249150122, 1555081692, 1996064986, 2554220882, 2821834349, 2952996808, 3210313671, 3336571891, 3584528711, 113926993, 338241895, 666307205, 773529912, 1294757372, 1396182291, 1695183700, 1986661051, 2177026350, 2456956037, 2730485921, 2820302411, 3259730800, 3345764771, 3516065817, 3600352804, 4094571909, 275423344, 430227734, 506948616, 659060556, 883997877, 958139571, 1322822218, 1537002063, 1747873779, 1955562222, 2024104815, 2227730452, 2361852424, 2428436474, 2756734187, 3204031479, 3329325298]

/-- SHA-256 initial hash state. -/
def H256 : List Nat := [1779033703, 3144134277, 1013904242, 2773480762, 1359893119, 2600822924, 528734635, 1541459225]

/-- Big-endian length and `0x80` padding to a 64-byte multiple. -/
def sha256Pad (msg : List Nat) : List Nat :=
  let L := msg.length
  let z := (119 - L % 64) % 64
  let bits := 8 * L
  msg ++ 128 :: List.replicate z 0 ++
    [bits >>> 56 % 256, bits >>> 48 % 256, bits >>> 40 % 256, bits >>> 32 % 256,
     bits >>> 24 % 256, bits >>> 16 % 256, bits >>> 8 % 256, bits % 256]

/-- Big-endian 32-bit words from bytes. -/
def bytesToWords : List Nat → List Nat
  | b0 :: b1 :: b2 :: b3 :: rest =>
      (((b0 * 256 + b1) * 256 + b2) * 256 + b3) :: bytesToWords rest
  | _ => []

/-- Split a word list into 16-word blocks. -/
def chunk16 : List Nat → List (List Nat)
  | [] => []
  | w :: ws => ((w :: ws).take 16) :: chunk16 ((w :: ws).drop 16)
termination_by l => l.length
decreasing_by simp [List.length_drop]; omega

/-- Extend the message schedule by `i` further words. -/
def schedGo (w : List Nat) : Nat → List Nat
  | 0 => w
  | i + 1 =>
      let t := add32 (add32 (ssig1 (w.getD (w.length - 2) 0)) (w.getD (w.length - 7) 0))
        (add32 (ssig0 (w.getD (w.length - 15) 0)) (w.getD (w.length - 16) 0))
      schedGo (w ++ [t]) i

/-- One compression round; the state is the 8-word working vector. -/
def compressStep (st : List Nat) (kw : Nat × Nat) : List Nat :=
  match st with
  | [a, b, c, d, e, f, g, h] =>
      let t1 := add32 h (add32 (bsig1 e) (add32 (chW e f g) (add32 kw.1 kw.2)))
      let t2 := add32 (bsig0 a) (majW a b c)
      [add32 t1 t2, a, b, c, add32 d t1, e, f, g]
  | _ => st

/-- Process one 16-word block. -/
def sha256Block (h : List Nat) (block : List Nat) : List Nat :=
  let w := schedGo block 48
  let st := ((K256.zip w).foldl compressStep h)
  (h.zip st).map (fun p => add32 p.1 p.2)

/-- SHA-256 state words of a byte message. -/
def sha256Words (msg : List Nat) : List Nat :=
  (chunk16 (bytesToWords (sha256Pad msg))).foldl sha256Block H256

/-- Lower-case hex digit. -/
def hexChar (n : Nat) : Char :=
  if n % 16 < 10 then digitChar (n % 16) else Char.ofNat (87 + n % 16)

/-- Eight hex digits of a 32-bit word. -/
def wordHex (w : Nat) : List Char :=
  [hexChar (w >>> 28), hexChar (w >>> 24), hexChar (w >>> 20), hexChar (w >>> 16),
   hexChar (w >>> 12), hexChar (w >>> 8), hexChar (w >>> 4), hexChar w]

/-- `hashlib.sha256(...).hexdigest()` of a byte message. -/
def sha256hex (msg : List Nat) : String := ⟨((sha256Words msg).map wordHex).flatten⟩

/-- A JSON value as passed in the params dicts. -/
inductive JVal where
  | jstr (s : String)
  | jnum (q : ℚ)
  | jarr (elems : List JVal)

/-- Decimal rendering of an integer. -/
def renderInt (n : Int) : String :=
  ⟨(if n < 0 then ['-'] else []) ++ natChars n.natAbs⟩

/-- Join strings with a separator. -/
def joinSep (sep : String) : List String → String
  | [] => ""
  | [s] => s
  | s :: t :: rest => s ++ sep ++ joinSep sep (t :: rest)

/-- Serialize a JSON value (string escaping and float repr are
approximated; only used inside the hash input). -/
def jvalRender : JVal → String
  | JVal.jstr s => "\"" ++ s ++ "\""
  | JVal.jnum q =>
      if q.den = 1 then renderInt q.num
      else renderInt q.num ++ "/" ++ ⟨natChars q.den⟩
  | JVal.jarr elems =>
      "[" ++ joinSep ", " (elems.attach.map (fun ex =>
        match ex with
        | ⟨x, hx⟩ =>
          have h : sizeOf x < 1 + sizeOf elems := by
            have := List.sizeOf_lt_of_mem hx
            omega
          jvalRender x)) ++ "]"

/-- Sort dict items by key, as `json.dumps(..., sort_keys=True)` does. -/
def sortByKey (ps : List (String × JVal)) : List (String × JVal) :=
  List.insertionSort (fun a b => a.1 ≤ b.1) ps

/-- `json.dumps(params, sort_keys=True)` with the default separators. -/
def jdumpsSorted (ps : List (String × JVal)) : String :=
  "\x7b" ++
    joinSep ", " ((sortByKey ps).map (fun p => "\"" ++ p.1 ++ "\": " ++ jvalRender p.2)) ++
    "\x7d"

/-- `generate_cache_key` from `analytics/caching.py`: the SHA-256 hex
digest of `prefix + ":" + json.dumps(params, sort_keys=True)`. -/
def generate_cache_key (pre : String) (params : List (String × JVal)) : String :=
  sha256hex (strBytes (pre ++ ":" ++ jdumpsSorted params))

/-! ### Concrete tables used as witnesses and counterexamples -/

/-- A well-formed three-row monthly table (synthetic row plus two
months), all columns present and finite. -/
def tblSmall : DFrame :=
  { dates := [⟨2020, 12, 30⟩, ⟨2020, 12, 31⟩, ⟨2021, 1, 31⟩],
    pv := [PF.num 1, PF.num (11 / 10), PF.num (121 / 100)],
    mr := some [PF.num 0, PF.num (1 / 10), PF.num (1 / 10)],
    dd := some [PF.num 0, PF.num 0, PF.num 0] }

/-- The statement that a metrics panel consists of the sentinel in every
field, as the spec describes the short-circuit panel.  `years` is
modelled by requiring the string sentinel (the code stores the int `0`
there) and `annual_returns` (a dict in the code) is left out: the
refuting field is `years`. -/
def AllNAPanel (m : Metrics) : Prop :=
  m.cagr = "N/A" ∧ m.volatility = "N/A" ∧ m.sharpe_ratio = "N/A" ∧
  m.max_drawdown = "N/A" ∧ m.best_month = "N/A" ∧ m.worst_month = "N/A" ∧
  m.total_return = "N/A" ∧ m.years = PyVal.pstr "N/A" ∧
  m.sortino_ratio = "N/A" ∧ m.calmar_ratio = "N/A" ∧
  m.max_drawdown_duration = "N/A" ∧ m.rolling_volatility = "N/A" ∧
  m.rolling_return = "N/A"

/-- Claim C2 counterexample: on `None` input the returned panel is not
all-sentinel — its `years` field is the int `0`, not `"N/A"`. -/
theorem c2_counterexample : ¬ AllNAPanel (calculate_metrics none).1 := by
  intro h
  exact absurd h.2.2.2.2.2.2.2.1 (by decide)

/-- C2 (amended): for `None`, empty, or fewer-than-2-row input,
`calculate_metrics` returns the fixed default panel: every statistic
field is `"N/A"`, but `years` is the int `0` and `annual_returns` the
empty dict. -/
theorem c2_short_circuit (df? : Option DFrame)
    (h : df? = none ∨ ∃ df, df? = some df ∧ df.dates.length < 2) :
    (calculate_metrics df?).1 = naPanel := by
  rcases h with h | ⟨df, h, hlen⟩
  · subst h; rfl
  · subst h
    simp only [calculate_metrics]
    rw [if_pos hlen]

/-- Claim C2 witness: the amended theorem evaluated at the `None`
input. -/
theorem c2_witness : (calculate_metrics none).1 = naPanel :=
  c2_short_circuit none (Or.inl rfl)

/-- Claim C3 counterexample: on a table with only 2 monthly returns the
rolling fields are the formatted zero `"0.00%"`, not the `"N/A"`
sentinel the claim requires. -/
theorem c3_counterexample :
    (calculate_metrics (some tblSmall)).1.rolling_volatility = "0.00%" ∧
    (calculate_metrics (some tblSmall)).1.rolling_return = "0.00%" ∧
    (calculate_metrics (some tblSmall)).1.rolling_volatility ≠ "N/A" := by
  refine ⟨?_, ?_, ?_⟩ <;> with_unfolding_all decide

/-- C3 (amended): when the return series after the synthetic first row
has fewer than 12 entries, both `rolling_volatility` and
`rolling_return` are the formatted zero `"0.00%"` (the code substitutes
the number 0, not the `NotAvailable` sentinel). -/
theorem c3_rolling_zero (df : DFrame) (mrs : List PF)
    (hmr : df.mr = some mrs) (h2 : 2 ≤ df.dates.length)
    (hlen : (mrs.drop 1).length < 12) :
    (calculate_metrics (some df)).1.rolling_volatility = "0.00%" ∧
    (calculate_metrics (some df)).1.rolling_return = "0.00%" := by
  have hnot : ¬ df.dates.length < 2 := by omega
  simp only [calculate_metrics, hmr, if_neg hnot, if_neg hlen.not_le]
  constructor <;> with_unfolding_all decide

/-- Claim C3 witness: the amended theorem evaluated at the concrete
three-row table. -/
theorem c3_witness :
    (calculate_metrics (some tblSmall)).1.rolling_volatility = "0.00%" ∧
    (calculate_metrics (some tblSmall)).1.rolling_return = "0.00%" :=
  c3_rolling_zero tblSmall [PF.num 0, PF.num (1 / 10), PF.num (1 / 10)] rfl
    (by decide) (by decide)

/-- A two-row table whose `Monthly Return` column is absent. -/
def tblNoMR : DFrame :=
  { dates := [⟨2020, 12, 31⟩, ⟨2021, 1, 31⟩],
    pv := [PF.num 1, PF.num (11 / 10)],
    mr := none,
    dd := some [PF.num 0, PF.num 0] }

set_option maxRecDepth 8000 in
/-- Claim C9 counterexample: `calculate_metrics` mutates its caller's
table — on a table lacking the `Monthly Return` column, the column is
added in place, so the table after the call differs from the input. -/
theorem c9_counterexample : (calculate_metrics (some tblNoMR)).2 ≠ some tblNoMR := by
  with_unfolding_all decide

/-- C9 (amended): `calculate_metrics` reassigns the index and adds the
missing `Monthly Return` / `Drawdown` columns in place, so it is not
pure; but when both columns are already present (and the index is
already datetime, as modelled), the caller's table is value-unchanged
after the call. -/
theorem c9_no_mutation_when_columns_present (df : DFrame) (mrs dds : List PF)
    (hmr : df.mr = some mrs) (hdd : df.dd = some dds) :
    (calculate_metrics (some df)).2 = some df := by
  simp only [calculate_metrics, hmr, hdd]
  split
  · rfl
  · cases df
    simp_all

/-- Claim C9 witness: the amended theorem at the concrete three-row
table with both columns present. -/
theorem c9_witness : (calculate_metrics (some tblSmall)).2 = some tblSmall :=
  c9_no_mutation_when_columns_present tblSmall
    [PF.num 0, PF.num (1 / 10), PF.num (1 / 10)] [PF.num 0, PF.num 0, PF.num 0]
    rfl rfl

/-! ### Longest drawdown run (claim C5) -/

/-- The duration loop restated over the boolean test the row condition
reduces to. -/
def bStep (st : Nat × Nat × Bool) (b : Bool) : Nat × Nat × Bool :=
  if b then
    if st.2.2 = false then (st.1, 1, true) else (st.1, st.2.1 + 1, true)
  else
    if st.2.2 = true then (max st.1 st.2.1, 0, false) else st

/-- Close the loop state: count a run still open at the final row. -/
def ddFin (st : Nat × Nat × Bool) : Nat :=
  if st.2.2 then max st.1 st.2.1 else st.1

/-- Lengths of the maximal runs of `true`, with `cur` the length of the
run in progress. -/
def trueRunsGo (cur : Nat) : List Bool → List Nat
  | [] => if 0 < cur then [cur] else []
  | b :: bs =>
      if b then trueRunsGo (cur + 1) bs
      else if 0 < cur then cur :: trueRunsGo 0 bs else trueRunsGo 0 bs

/-- Length of the longest consecutive run of `true` entries, a run still
open at the end included. -/
def longestTrueRun (bs : List Bool) : Nat := (trueRunsGo 0 bs).foldr max 0

theorem ddStep_eq_bStep (st : Nat × Nat × Bool) (x : PF) :
    ddStep st x = bStep st (pfLt0 x) := by
  cases x <;> simp [ddStep, bStep, pfIsNa, pfLt0]

theorem bStep_fold (bs : List Bool) :
    (∀ m c, 0 < c →
      ddFin (bs.foldl bStep (m, c, true)) = max m ((trueRunsGo c bs).foldr max 0)) ∧
    (∀ m, ddFin (bs.foldl bStep (m, 0, false)) = max m ((trueRunsGo 0 bs).foldr max 0)) := by
  induction bs with
  | nil =>
    refine ⟨fun m c hc => ?_, fun m => ?_⟩
    · simp [ddFin, trueRunsGo, if_pos hc]
    · simp [ddFin, trueRunsGo]
  | cons b bs ih =>
    refine ⟨fun m c hc => ?_, fun m => ?_⟩
    · cases b
      · have hb : bStep (m, c, true) false = (max m c, 0, false) := by simp [bStep]
        rw [List.foldl_cons, hb, ih.2 (max m c)]
        have ht : trueRunsGo c (false :: bs) = c :: trueRunsGo 0 bs := by
          simp [trueRunsGo, if_pos hc]
        rw [ht, List.foldr_cons]
        omega
      · have hb : bStep (m, c, true) true = (m, c + 1, true) := by simp [bStep]
        rw [List.foldl_cons, hb, ih.1 m (c + 1) (by omega)]
        have ht : trueRunsGo c (true :: bs) = trueRunsGo (c + 1) bs := by
          simp [trueRunsGo]
        rw [ht]
    · cases b
      · have hb : bStep (m, 0, false) false = (m, 0, false) := by simp [bStep]
        rw [List.foldl_cons, hb, ih.2 m]
        have ht : trueRunsGo 0 (false :: bs) = trueRunsGo 0 bs := by simp [trueRunsGo]
        rw [ht]
      · have hb : bStep (m, 0, false) true = (m, 1, true) := by simp [bStep]
        rw [List.foldl_cons, hb, ih.1 m 1 (by omega)]
        have ht : trueRunsGo 0 (true :: bs) = trueRunsGo 1 bs := by simp [trueRunsGo]
        rw [ht]

theorem ddDuration_eq_longest (dds : List PF) :
    ddDuration dds = longestTrueRun (dds.map pfLt0) := by
  have h1 : dds.foldl ddStep (0, 0, false) = (dds.map pfLt0).foldl bStep (0, 0, false) := by
    rw [List.foldl_map]
    exact List.foldl_ext _ _ _ (fun a b _ => ddStep_eq_bStep a b)
  have h2 : ddDuration dds = ddFin (dds.foldl ddStep (0, 0, false)) := rfl
  rw [h2, h1, (bStep_fold (dds.map pfLt0)).2 0]
  simp [longestTrueRun]

/-- Claim C5: `max_drawdown_duration` equals the length of the longest
consecutive run of rows whose `Drawdown` value is `< 0` (a run still
open at the final row counts), rendered as `"<N> months"`, and is
`"0 months"` when no row has negative drawdown. -/
theorem c5_max_drawdown_duration (df : DFrame) (dds : List PF)
    (hdd : df.dd = some dds) (h2 : 2 ≤ df.dates.length) :
    (calculate_metrics (some df)).1.max_drawdown_duration =
      (if 0 < longestTrueRun (dds.map pfLt0) then
        String.mk (natChars (longestTrueRun (dds.map pfLt0)) ++ (' ' :: "months".data))
      else "0 months") := by
  have hnot : ¬ df.dates.length < 2 := by omega
  simp only [calculate_metrics, hdd, if_neg hnot]
  rw [ddDuration_eq_longest]

/-- A five-row table with two drawdown runs of lengths 2 and 1. -/
def tblDD : DFrame :=
  { dates := [⟨2020, 12, 31⟩, ⟨2021, 1, 31⟩, ⟨2021, 2, 28⟩, ⟨2021, 3, 31⟩, ⟨2021, 4, 30⟩],
    pv := [PF.num 1, PF.num (9 / 10), PF.num (95 / 100), PF.num (11 / 10), PF.num 1],
    mr := some [PF.num 0, PF.num (-1 / 10), PF.num (1 / 18), PF.num (3 / 19),
      PF.num (-1 / 11)],
    dd := some [PF.num 0, PF.num (-1 / 10), PF.num (-1 / 20), PF.num 0,
      PF.num (-1 / 11)] }

/-- Claim C5 witness: the theorem evaluated on the concrete five-row
table, where the longest drawdown run has 2 rows. -/
theorem c5_witness :
    (calculate_metrics (some tblDD)).1.max_drawdown_duration = "2 months" := by
  have h := c5_max_drawdown_duration tblDD
    [PF.num 0, PF.num (-1 / 10), PF.num (-1 / 20), PF.num 0, PF.num (-1 / 11)]
    rfl (by decide)
  rw [h]
  with_unfolding_all decide

/-- The collaborator for the C4 counterexample: ticker A resolves with
two month-end prices, ticker B fails. -/
def quoteAB : String → Option (List ℚ) :=
  fun s => if s = "A" then some [100, 110] else none

/-- Claim C4 counterexample: tickers A and B with weights 0 and 1, where
B fails: the remaining weight sum is 0, yet no `InsufficientDataError`
exists anywhere in the code — the weights all become 0 and
`fetch_portfolio_data` still returns a table. -/
theorem c4_counterexample :
    normalizeWeights ["A", "B"] [0, 1] (classifyTickers quoteAB ["A", "B"]).2 = [0] ∧
    (fetch_portfolio_data quoteAB ["A", "B"] [0, 1]).isSome = true := by
  constructor <;> with_unfolding_all decide

/-- C4 (amended): after dropping the weights of failed symbols, the code
never fails: when the remaining weight sum is positive each weight is
divided by it and the results sum to exactly 1; when the remaining sum
is 0 every weight is replaced by 0 and the computation proceeds. -/
theorem c4_weight_renormalization (tickers : List String) (weights : List ℚ)
    (valids : List String) :
    (0 < (valids.map (tickerMapGet tickers weights)).sum →
      (normalizeWeights tickers weights valids).sum = 1) ∧
    ((valids.map (tickerMapGet tickers weights)).sum = 0 →
      ∀ w ∈ normalizeWeights tickers weights valids, w = 0) := by
  constructor
  · intro h
    unfold normalizeWeights
    simp only [if_pos h]
    have hdiv : ∀ w : ℚ, w / (valids.map (tickerMapGet tickers weights)).sum =
        w * ((valids.map (tickerMapGet tickers weights)).sum)⁻¹ := fun w => div_eq_mul_inv _ _
    simp only [hdiv]
    rw [List.sum_map_mul_right, List.map_id'' fun x => rfl]
    exact mul_inv_cancel₀ (ne_of_gt h)
  · intro h w hw
    unfold normalizeWeights at hw
    simp only [h, lt_irrefl, if_neg (lt_irrefl 0), List.mem_map] at hw
    obtain ⟨x, _, hx⟩ := hw
    exact hx.symm

/-- Claim C4 witness: the amended theorem at two surviving tickers with
equal weights; the renormalized weights sum to exactly 1. -/
theorem c4_witness :
    (normalizeWeights ["A", "B"] [2 / 10, 6 / 10] ["A", "B"]).sum = 1 :=
  (c4_weight_renormalization ["A", "B"] [2 / 10, 6 / 10] ["A", "B"]).1
    (by with_unfolding_all decide)

/-- Inversion of a successful `fetch_portfolio_data` call: the surviving
tickers are nonempty, the value and drawdown columns come from
`pvColumn`/`drawdownColumn`, and the correlation payload is present with
a square matrix over exactly the surviving tickers. -/
theorem fetch_some_inv (quote : String → Option (List ℚ)) (tickers : List String)
    (weights : List ℚ) (out : AggOut)
    (h : fetch_portfolio_data quote tickers weights = some out) :
    ∃ rets, out.pv = pvColumn rets ∧ out.drawdown = drawdownColumn (pvColumn rets) ∧
      ∃ M, out.corr = some ((classifyTickers quote tickers).2, M) ∧
        M.length = (classifyTickers quote tickers).2.length ∧
        ∀ row ∈ M, row.length = (classifyTickers quote tickers).2.length := by
  simp only [fetch_portfolio_data] at h
  by_cases h1 : (classifyTickers quote tickers).2 = []
  · rw [if_pos h1] at h
    cases h
  · rw [if_neg h1] at h
    by_cases h2 : (((classifyTickers quote tickers).2.map
        (fun v => (quote v).getD [])).headD []).length = 0
    · rw [if_pos h2] at h
      cases h
    · rw [if_neg h2] at h
      have hout := (Option.some.inj h).symm
      have hcols : (classifyTickers quote tickers).2.map (fun v => (quote v).getD []) ≠ [] := by
        intro hc
        exact h1 (List.map_eq_nil_iff.mp hc)
      have hret : ((classifyTickers quote tickers).2.map
          (fun v => (quote v).getD [])).map qPctChange ≠ [] := by
        intro hc
        exact hcols (List.map_eq_nil_iff.mp hc)
      refine ⟨portfolioReturns (((classifyTickers quote tickers).2.map
          (fun v => (quote v).getD [])).map qPctChange)
          (normalizeWeights tickers weights (classifyTickers quote tickers).2)
          ((((classifyTickers quote tickers).2.map
            (fun v => (quote v).getD [])).headD []).length - 1), ?_, ?_, ?_⟩
      · rw [hout]
      · rw [hout]
      · refine ⟨corrMatrix (((classifyTickers quote tickers).2.map
          (fun v => (quote v).getD [])).map qPctChange), ?_, ?_, ?_⟩
        · rw [hout]
          simp only [if_neg hret]
        · simp [corrMatrix]
        · intro row hrow
          simp only [corrMatrix, List.mem_map] at hrow
          obtain ⟨c1, _, hc1⟩ := hrow
          rw [← hc1]
          simp

/-- The collaborator for the C7 counterexample: a single resolvable
ticker with three month-end prices. -/
def quoteSingle : String → Option (List ℚ) :=
  fun s => if s = "A" then some [100, 110, 105] else none

/-- A two-ticker collaborator for witnesses. -/
def quote2 : String → Option (List ℚ) :=
  fun s =>
    if s = "A" then some [100, 110] else if s = "B" then some [100, 105] else none

/-- The table `fetch_portfolio_data` returns for `quote2` with equal
weights. -/
def out2 : AggOut :=
  { pv := [1, 1, 43 / 40], drawdown := [0, 0, 0],
    corr := some (["A", "B"], [[PF.nan, PF.nan], [PF.nan, PF.nan]]),
    errors := [] }

set_option maxRecDepth 8000 in
/-- Claim C7 counterexample: with exactly one symbol holding valid
monthly return data, the correlation output is not `None` but a 1-by-1
matrix over that symbol. -/
theorem c7_counterexample :
    (fetch_portfolio_data quoteSingle ["A"] [1]).isSome = true ∧
    ((fetch_portfolio_data quoteSingle ["A"] [1]).getD
        { pv := [], drawdown := [], corr := none, errors := [] }).corr =
      some (["A"], [[PF.num 1]]) := by
  constructor <;> with_unfolding_all decide

/-- C7 (amended): the correlation payload is absent only when the whole
fetch fails (no surviving symbol or no rows); on every successful
computation it is present — even with a single valid symbol — and
consists of the ordered surviving-symbol list plus a square matrix over
exactly those symbols. -/
theorem c7_correlation_shape (quote : String → Option (List ℚ))
    (tickers : List String) (weights : List ℚ) (out : AggOut)
    (h : fetch_portfolio_data quote tickers weights = some out) :
    ∃ M, out.corr = some ((classifyTickers quote tickers).2, M) ∧
      M.length = (classifyTickers quote tickers).2.length ∧
      ∀ row ∈ M, row.length = (classifyTickers quote tickers).2.length :=
  (fetch_some_inv quote tickers weights out h).choose_spec.2.2

/-- Claim C7 witness: the amended theorem at a two-ticker request. -/
theorem c7_witness :
    ∃ M, out2.corr =
      some ((classifyTickers quote2 ["A", "B"]).2, M) ∧
      M.length = (classifyTickers quote2 ["A", "B"]).2.length ∧
      ∀ row ∈ M, row.length = (classifyTickers quote2 ["A", "B"]).2.length :=
  c7_correlation_shape quote2 ["A", "B"] [1 / 2, 1 / 2] out2 (by with_unfolding_all decide)

/-- Every drawdown entry `v / m - 1` over a running maximum started at a
positive value is nonpositive. -/
theorem cummaxQ_drawdown_nonpos (l : List ℚ) (acc : ℚ) (hacc : 0 < acc) :
    ∀ d ∈ l.zipWith (fun v m => v / m - 1) (cummaxQ acc l), d ≤ 0 := by
  induction l generalizing acc with
  | nil => intro d hd; cases hd
  | cons x xs ih =>
    intro d hd
    simp only [cummaxQ, List.zipWith_cons_cons, List.mem_cons] at hd
    rcases hd with hd | hd
    · subst hd
      have hm : 0 < max acc x := lt_of_lt_of_le hacc (le_max_left _ _)
      have hx : x ≤ max acc x := le_max_right _ _
      have : x / max acc x ≤ 1 := (div_le_one hm).mpr hx
      linarith
    · exact ih (max acc x) (lt_of_lt_of_le hacc (le_max_left _ _)) d hd

/-- The drawdown column of an aggregator value curve is nonpositive
everywhere. -/
theorem drawdown_pvColumn_nonpos (rets : List ℚ) :
    ∀ d ∈ drawdownColumn (pvColumn rets), d ≤ 0 := by
  have h := cummaxQ_drawdown_nonpos (pvColumn rets) 1 one_pos
  simpa [drawdownColumn, pvColumn] using h

/-- Claim C8: every monthly table produced by the aggregator has
`Portfolio Value` exactly 1 at the synthetic first row and a `Drawdown`
value `≤ 0` at every row. -/
theorem c8_table_invariants (quote : String → Option (List ℚ))
    (tickers : List String) (weights : List ℚ) (out : AggOut)
    (h : fetch_portfolio_data quote tickers weights = some out) :
    out.pv.head? = some 1 ∧ ∀ d ∈ out.drawdown, d ≤ 0 := by
  obtain ⟨rets, hpv, hdd, -⟩ := fetch_some_inv quote tickers weights out h
  constructor
  · rw [hpv]; rfl
  · rw [hdd]
    exact drawdown_pvColumn_nonpos rets

/-- The table `fetch_portfolio_data` returns for the single surviving
ticker A with prices 100, 110. -/
def out8 : AggOut :=
  { pv := [1, 1, 11 / 10], drawdown := [0, 0, 0],
    corr := some (["A"], [[PF.nan]]), errors := [] }

set_option maxRecDepth 4000 in
/-- Claim C8 witness: the theorem at a concrete one-ticker fetch. -/
theorem c8_witness : out8.pv.head? = some 1 ∧ ∀ d ∈ out8.drawdown, d ≤ 0 :=
  c8_table_invariants quoteAB ["A"] [1] out8 (by with_unfolding_all decide)

/-! ### Cache-key determinism (claim C10) -/

instance : IsTotal (String × JVal) (fun a b => a.1 ≤ b.1) :=
  ⟨fun a b => le_total a.1 b.1⟩

instance : IsTrans (String × JVal) (fun a b => a.1 ≤ b.1) :=
  ⟨fun _ _ _ h1 h2 => le_trans h1 h2⟩

instance : IsAntisymm (String × JVal) (fun a b => a.1 < b.1) :=
  ⟨fun _ _ h1 h2 => absurd (lt_trans h1 h2) (lt_irrefl _)⟩

/-- Key-sorting two permutation-equal params lists with duplicate-free
keys yields the same list. -/
theorem sortByKey_eq_of_perm (p1 p2 : List (String × JVal)) (hperm : p1.Perm p2)
    (hnodup : (p1.map Prod.fst).Nodup) : sortByKey p1 = sortByKey p2 := by
  have hs1 : (sortByKey p1).Sorted (fun a b => a.1 ≤ b.1) :=
    List.sorted_insertionSort _ _
  have hs2 : (sortByKey p2).Sorted (fun a b => a.1 ≤ b.1) :=
    List.sorted_insertionSort _ _
  have hp1 : (sortByKey p1).Perm p1 := List.perm_insertionSort _ _
  have hp2 : (sortByKey p2).Perm p2 := List.perm_insertionSort _ _
  have hperm12 : (sortByKey p1).Perm (sortByKey p2) :=
    (hp1.trans hperm).trans hp2.symm
  have hnodup2 : (p2.map Prod.fst).Nodup := ((hperm.map Prod.fst).nodup_iff).mp hnodup
  have hnd1 : ((sortByKey p1).map Prod.fst).Nodup :=
    ((hp1.map Prod.fst).nodup_iff).mpr hnodup
  have hnd2 : ((sortByKey p2).map Prod.fst).Nodup :=
    ((hp2.map Prod.fst).nodup_iff).mpr hnodup2
  have hne1 : (sortByKey p1).Pairwise (fun a b => a.1 ≠ b.1) := by
    rw [List.Nodup, List.pairwise_map] at hnd1
    exact hnd1
  have hne2 : (sortByKey p2).Pairwise (fun a b => a.1 ≠ b.1) := by
    rw [List.Nodup, List.pairwise_map] at hnd2
    exact hnd2
  have hlt1 : (sortByKey p1).Sorted (fun a b => a.1 < b.1) :=
    (hs1.and hne1).imp (fun h => lt_of_le_of_ne h.1 h.2)
  have hlt2 : (sortByKey p2).Sorted (fun a b => a.1 < b.1) :=
    (hs2.and hne2).imp (fun h => lt_of_le_of_ne h.1 h.2)
  exact List.eq_of_perm_of_sorted hperm12 hlt1 hlt2

/-- Claim C10: for any prefix and any two params dicts equal as
key-to-value mappings (the same pairs in any insertion order, keys
unique), `generate_cache_key` produces the same SHA-256 hex digest. -/
theorem c10_cache_key_deterministic (pre : String) (p1 p2 : List (String × JVal))
    (hperm : p1.Perm p2) (hnodup : (p1.map Prod.fst).Nodup) :
    generate_cache_key pre p1 = generate_cache_key pre p2 := by
  unfold generate_cache_key jdumpsSorted
  rw [sortByKey_eq_of_perm p1 p2 hperm hnodup]

/-- Claim C10 witness: the theorem at two concrete insertion orders of
the same params dict. -/
theorem c10_witness :
    generate_cache_key "portfolio"
      [("tickers", JVal.jstr "A"), ("weights", JVal.jnum 1)] =
    generate_cache_key "portfolio"
      [("weights", JVal.jnum 1), ("tickers", JVal.jstr "A")] :=
  c10_cache_key_deterministic "portfolio" _ _
    (List.Perm.swap _ _ _) (by decide)

/-! ### NaN leakage (claim C1) -/

instance (s : String) : Decidable (GoodField s) := by
  unfold GoodField
  infer_instance

/-- The `years` field is finite-or-sentinel whenever it is a string (in
the short-circuit panel it is the int `0`, which is finite). -/
def yearsFieldGood : PyVal → Prop
  | PyVal.pstr s => GoodField s
  | PyVal.pint _ => True

instance (v : PyVal) : Decidable (yearsFieldGood v) :=
  match v with
  | PyVal.pstr s => inferInstanceAs (Decidable (GoodField s))
  | PyVal.pint _ => Decidable.isTrue trivial

/-- Every top-level numeric field of the panel is a finite formatted
number string or the `N/A` sentinel.  `max_drawdown_duration` is a
`"<N> months"` string by construction, not a numeric field. -/
def TopPanelGood (m : Metrics) : Prop :=
  GoodField m.cagr ∧ GoodField m.volatility ∧ GoodField m.sharpe_ratio ∧
  GoodField m.max_drawdown ∧ GoodField m.best_month ∧ GoodField m.worst_month ∧
  GoodField m.total_return ∧ yearsFieldGood m.years ∧
  GoodField m.sortino_ratio ∧ GoodField m.calmar_ratio ∧
  GoodField m.rolling_volatility ∧ GoodField m.rolling_return

instance (m : Metrics) : Decidable (TopPanelGood m) := by
  unfold TopPanelGood
  infer_instance

/-- The claim as stated: every numeric field and every `annual_returns`
entry is finite-or-sentinel. -/
def PanelNumericGood (m : Metrics) : Prop :=
  TopPanelGood m ∧ ∀ p ∈ m.annual_returns, GoodField p.2

instance (m : Metrics) : Decidable (PanelNumericGood m) := by
  unfold PanelNumericGood
  infer_instance

/-- A table whose `Portfolio Value` has a NaN in the row preceding the
first row of 2021. -/
def tblNaN : DFrame :=
  { dates := [⟨2020, 12, 30⟩, ⟨2020, 12, 31⟩, ⟨2021, 1, 31⟩],
    pv := [PF.num 1, PF.nan, PF.num (11 / 10)],
    mr := some [PF.num 0, PF.num 0, PF.num 0],
    dd := some [PF.num 0, PF.num 0, PF.num 0] }

set_option maxRecDepth 8000 in
/-- Claim C1 counterexample: on a table with a NaN `Portfolio Value`
just before a year boundary, the 2021 `annual_returns` entry renders as
`"nan%"` — a NaN leaks into the returned panel. -/
theorem c1_counterexample : ¬ PanelNumericGood (calculate_metrics (some tblNaN)).1 := by
  with_unfolding_all decide


/-- A guarded year-over-year ratio of finite values formats to a finite
number string. -/
theorem goodField_fmtPercent_of_notna (a b : PF) (ha : pfIsNa a = false)
    (hb : pfNe0 b = true) (hbna : pfIsNa b = false) :
    GoodField (fmtPercent (pfSub (pfDiv a b) 1)) := by
  cases a with
  | nan => cases ha
  | num qa =>
    cases b with
    | nan => cases hbna
    | num qb =>
      have hqb : qb ≠ 0 := by simpa [pfNe0] using hb
      right
      show isFiniteNumChars (fmtPercent (pfSub (pfDiv (PF.num qa) (PF.num qb)) 1)).data = true
      rw [show pfDiv (PF.num qa) (PF.num qb) = PF.num (qa / qb) by simp [pfDiv, if_neg hqb]]
      exact isFiniteNumChars_fmt2P _

/-- When the `Portfolio Value` column has no NaN, every `annual_returns`
entry is finite-or-sentinel: the year-start value is finite (or the 1.0
fallback), so the guarded division cannot produce NaN. -/
theorem annualReturns_good (dates : List MDate) (pv : List PF)
    (hfin : ∀ x ∈ pv, pfIsNa x = false) :
    ∀ p ∈ annualReturns dates pv, GoodField p.2 := by
  intro p hp
  unfold annualReturns at hp
  rw [List.mem_filterMap] at hp
  obtain ⟨yr, _, hf⟩ := hp
  unfold annualEntry at hf
  cases hgrp : ((dates.zip pv).drop 1).filter (fun r => r.1.y = yr) with
  | nil => rw [hgrp] at hf; cases hf
  | cons g1 gs =>
    rw [hgrp] at hf
    simp only at hf
    set pre := (dates.zip pv).filter (fun r =>
      r.1.dayNum ≤ ((gs.map (fun r => r.1)).foldl minDate g1.1).dayNum) with hpre
    have hstart : pfIsNa (match secondLast pre with
        | some r => r.2
        | none => PF.num 1) = false := by
      cases hsl : secondLast pre with
      | none => rfl
      | some r =>
        obtain ⟨a, b⟩ := r
        have hr1 : (a, b) ∈ pre := List.mem_of_mem_dropLast (List.mem_of_mem_getLast? hsl)
        have hr2 : (a, b) ∈ dates.zip pv := List.mem_of_mem_filter hr1
        exact hfin b (List.of_mem_zip hr2).2
    split at hf
    · rename_i hguard
      injection hf with hf2
      subst hf2
      exact goodField_fmtPercent_of_notna _ _ hguard.2 hguard.1 hstart
    · injection hf with hf2
      subst hf2
      left
      rfl

/-- C1 (amended): every top-level numeric field of the returned panel is
always a finite formatted string or `"N/A"`; the `annual_returns`
entries are too provided the `Portfolio Value` column contains no NaN —
a NaN in the row preceding a year's first row leaks as `"nan%"` in that
year's entry. -/
theorem c1_no_nonfinite_leak (df : DFrame) (mrs dds : List PF)
    (hmr : df.mr = some mrs) (hdd : df.dd = some dds) :
    TopPanelGood (calculate_metrics (some df)).1 ∧
    ((∀ x ∈ df.pv, pfIsNa x = false) →
      ∀ p ∈ (calculate_metrics (some df)).1.annual_returns, GoodField p.2) := by
  by_cases hlen : df.dates.length < 2
  · simp only [calculate_metrics, if_pos hlen]
    refine ⟨by with_unfolding_all decide, fun _ p hp => ?_⟩
    simp [naPanel] at hp
  · simp only [calculate_metrics, hmr, hdd, if_neg hlen]
    constructor
    · refine ⟨goodField_percent _, goodField_percent _, goodField_f2 _,
        goodField_percent _, goodField_percent _, goodField_percent _,
        goodField_percent _, ?_, goodField_f2 _, goodField_f2 _,
        goodField_percent _, goodField_percent _⟩
      exact goodField_fmtF1_num _
    · intro hfin p hp
      exact annualReturns_good df.dates df.pv hfin p hp

/-- Claim C1 witness: the amended theorem at the concrete three-row
table (all columns present, finite values). -/
theorem c1_witness :
    TopPanelGood (calculate_metrics (some tblSmall)).1 ∧
    ((∀ x ∈ tblSmall.pv, pfIsNa x = false) →
      ∀ p ∈ (calculate_metrics (some tblSmall)).1.annual_returns, GoodField p.2) :=
  c1_no_nonfinite_leak tblSmall
    [PF.num 0, PF.num (1 / 10), PF.num (1 / 10)] [PF.num 0, PF.num 0, PF.num 0]
    rfl rfl

/-! ### Annual returns (claim C6)

The specification formula: for each calendar year (excluding the
synthetic row), the reported return is `PV(last row of the year) /
PV(row just before the year's first row) - 1`, and for the very first
year the divisor is the synthetic baseline 1.0.  `chunksAnnual` states
this positionally: it walks the non-synthetic rows in contiguous year
chunks, carrying the previous chunk's closing value as the divisor,
seeded with the baseline. -/

theorem dropWhile_head_false {α : Type} (p : α → Bool) (l : List α) (b : α)
    (t : List α) (h : l.dropWhile p = b :: t) : p b = false := by
  induction l with
  | nil => cases h
  | cons a l ih =>
    rw [List.dropWhile_cons] at h
    by_cases hp : p a = true
    · rw [if_pos hp] at h
      exact ih h
    · rw [if_neg hp] at h
      cases h
      exact Bool.not_eq_true _ |>.mp hp

/-- The spec-side annual returns: the year of each contiguous chunk
paired with the formatted ratio of the chunk's closing value over the
previous chunk's closing value (the baseline for the first chunk),
minus one. -/
def chunksAnnual (prev : PF) (rows : List (MDate × PF)) : List (Int × String) :=
  match rows with
  | [] => []
  | r :: rest =>
    let chunk := (r :: rest).takeWhile (fun s => s.1.y = r.1.y)
    let rest2 := (r :: rest).dropWhile (fun s => s.1.y = r.1.y)
    let lastVal := (chunk.getLastD r).2
    (r.1.y, fmtPercent (pfSub (pfDiv lastVal prev) 1)) :: chunksAnnual lastVal rest2
termination_by rows.length
decreasing_by
  rw [List.dropWhile_cons, if_pos (by simp)]
  exact lt_of_le_of_lt (List.Sublist.length_le (List.dropWhile_sublist _))
    (by simp [Nat.lt_succ_self])

theorem foldl_minDate_eq (a : MDate) (l : List MDate)
    (h : ∀ b ∈ l, ¬ b.dayNum < a.dayNum) : l.foldl minDate a = a := by
  induction l with
  | nil => rfl
  | cons b bs ih =>
    rw [List.foldl_cons, show minDate a b = a from by
      simp [minDate, if_neg (h b (by simp))]]
    exact ih (fun c hc => h c (by simp [hc]))

theorem dedupAdj_block (y : Int) (ys zs : List Int)
    (hys : ∀ a ∈ ys, a = y) (hne : ys ≠ [])
    (hzs : zs = [] ∨ ∃ z zt, zs = z :: zt ∧ z ≠ y) :
    dedupAdj (ys ++ zs) = y :: dedupAdj zs := by
  induction ys with
  | nil => exact absurd rfl hne
  | cons a ys ih =>
    have ha : a = y := hys a (by simp)
    subst ha
    cases ys with
    | nil =>
      rcases hzs with h | ⟨z, zt, h, hz⟩
      · subst h; rfl
      · subst h
        show dedupAdj (a :: z :: zt) = a :: dedupAdj (z :: zt)
        conv_lhs => unfold dedupAdj
        rw [if_neg (fun h => hz h.symm)]
    | cons b ys2 =>
      have hb : b = a := (hys b (by simp)).trans (hys a (by simp)).symm
      subst hb
      show dedupAdj (b :: b :: (ys2 ++ zs)) = b :: dedupAdj zs
      conv_lhs => unfold dedupAdj
      rw [if_pos rfl]
      exact ih (fun c hc => hys c (by simp [hc])) (by simp)

theorem insertIntSorted_head (x : Int) (l : List Int) (h : ∀ a ∈ l, x ≤ a) :
    insertIntSorted x l = x :: l := by
  cases l with
  | nil => rfl
  | cons a t => exact if_pos (h a (by simp))

theorem sortInts_sorted_id (l : List Int) (h : l.Pairwise (· ≤ ·)) :
    sortInts l = l := by
  induction l with
  | nil => rfl
  | cons a t ih =>
    show insertIntSorted a (sortInts t) = a :: t
    rw [ih (List.Pairwise.sublist (List.sublist_cons_self a t) h)]
    exact insertIntSorted_head a t (fun b hb => (List.pairwise_cons.mp h).1 b hb)

theorem filter_eq_takeWhile_year (y : Int) (l : List (MDate × PF))
    (hpw : l.Pairwise (fun a b => a.1.y ≤ b.1.y)) (hlb : ∀ a ∈ l, y ≤ a.1.y) :
    l.filter (fun r => r.1.y = y) = l.takeWhile (fun r => r.1.y = y) := by
  induction l with
  | nil => rfl
  | cons a t ih =>
    rw [List.filter_cons, List.takeWhile_cons]
    by_cases ha : a.1.y = y
    · rw [if_pos (by simp [ha]), if_pos (by simp [ha])]
      rw [ih (List.Pairwise.sublist (List.sublist_cons_self a t) hpw)
        (fun b hb => hlb b (by simp [hb]))]
    · rw [if_neg (by simp [ha]), if_neg (by simp [ha])]
      rw [List.filter_eq_nil_iff.mpr]
      intro b hb
      have h1 : a.1.y ≤ b.1.y := (List.pairwise_cons.mp hpw).1 b hb
      have h2 : y < a.1.y := lt_of_le_of_ne (hlb a (by simp)) (fun h => ha h.symm)
      simp only [decide_eq_true_eq]
      omega

theorem filter_le_first (done : List (MDate × PF)) (c1 : MDate × PF)
    (tail : List (MDate × PF))
    (hsorted : (done ++ c1 :: tail).Pairwise (fun a b => a.1.dayNum < b.1.dayNum)) :
    (done ++ c1 :: tail).filter (fun r => r.1.dayNum ≤ c1.1.dayNum) = done ++ [c1] := by
  rw [List.filter_append]
  have hparts := List.pairwise_append.mp hsorted
  have h1 : done.filter (fun r => decide (r.1.dayNum ≤ c1.1.dayNum)) = done := by
    rw [List.filter_eq_self]
    intro a ha
    have := hparts.2.2 a ha c1 (by simp)
    simp only [decide_eq_true_eq]
    omega
  have h2 : (c1 :: tail).filter (fun r => decide (r.1.dayNum ≤ c1.1.dayNum)) = [c1] := by
    rw [List.filter_cons, if_pos (by simp)]
    rw [List.filter_eq_nil_iff.mpr]
    intro b hb
    have := (List.pairwise_cons.mp hparts.2.1).1 b hb
    simp only [decide_eq_true_eq]
    omega
  rw [h1, h2]


theorem drop_one_append {α : Type} (l1 l2 : List α) (h : l1 ≠ []) :
    (l1 ++ l2).drop 1 = l1.drop 1 ++ l2 := by
  cases l1 with
  | nil => exact absurd rfl h
  | cons a t => rfl

theorem getLastD_cons_eq_getLast {α : Type} (a : α) (l : List α) :
    (a :: l).getLastD a = (a :: l).getLast (by simp) := by
  rw [List.getLastD_eq_getLast?, List.getLast?_eq_getLast (a :: l) (by simp)]
  rfl

theorem annual_loop (rowsAll : List (MDate × PF))
    (hsorted : rowsAll.Pairwise (fun a b => a.1.dayNum < b.1.dayNum))
    (hfin : ∀ r ∈ rowsAll, ∃ q, r.2 = PF.num q ∧ q ≠ 0) :
    ∀ (n : Nat) (rest done : List (MDate × PF)) (pr : MDate × PF),
      rest.length ≤ n →
      rowsAll = done ++ rest →
      done ≠ [] →
      ((done.drop 1 ++ rest).Pairwise (fun a b => a.1.y ≤ b.1.y)) →
      (∀ a ∈ done.drop 1, ∀ b ∈ rest, a.1.y < b.1.y) →
      done.getLast? = some pr →
      (dedupAdj (rest.map (fun r => r.1.y))).filterMap
          (annualEntry rowsAll (done.drop 1 ++ rest)) =
        chunksAnnual pr.2 rest := by
  intro n
  induction n with
  | zero =>
    intro rest done pr hlen _ _ _ _ _
    have h0 : rest = [] := List.length_eq_zero.mp (Nat.le_zero.mp hlen)
    subst h0
    simp [chunksAnnual, dedupAdj]
  | succ n ih =>
    intro rest done pr hlen hsplit hne hyear hlt hpr
    cases rest with
    | nil => simp [chunksAnnual, dedupAdj]
    | cons c1 rtl =>
      have hpw_rest : (c1 :: rtl).Pairwise (fun a b => a.1.y ≤ b.1.y) :=
        List.Pairwise.sublist (List.sublist_append_right _ _) hyear
      have hchunk_cons : (c1 :: rtl).takeWhile (fun s => s.1.y = c1.1.y) =
          c1 :: rtl.takeWhile (fun s => s.1.y = c1.1.y) := by
        rw [List.takeWhile_cons, if_pos (by simp)]
      have hrest2_eq : (c1 :: rtl).dropWhile (fun s => s.1.y = c1.1.y) =
          rtl.dropWhile (fun s => s.1.y = c1.1.y) := by
        rw [List.dropWhile_cons, if_pos (by simp)]
      -- the group filter equals the leading chunk
      have hlb : ∀ a ∈ c1 :: rtl, c1.1.y ≤ a.1.y := by
        intro a ha
        rcases List.mem_cons.mp ha with h | h
        · subst h; exact le_refl _
        · exact (List.pairwise_cons.mp hpw_rest).1 a h
      have hgrp_rest : (c1 :: rtl).filter (fun r => r.1.y = c1.1.y) =
          (c1 :: rtl).takeWhile (fun s => s.1.y = c1.1.y) :=
        filter_eq_takeWhile_year c1.1.y (c1 :: rtl) hpw_rest hlb
      have hgrp_done : (done.drop 1).filter (fun r => r.1.y = c1.1.y) = [] := by
        rw [List.filter_eq_nil_iff]
        intro a ha
        have := hlt a ha c1 (by simp)
        simp only [decide_eq_true_eq]
        omega
      have hgrp : ((done.drop 1 ++ c1 :: rtl).filter (fun r => r.1.y = c1.1.y)) =
          c1 :: rtl.takeWhile (fun s => s.1.y = c1.1.y) := by
        rw [List.filter_append, hgrp_done, hgrp_rest, List.nil_append, hchunk_cons]
      -- years of the chunk are all c1's year; the rest2 head is different
      have hchunk_years : ∀ a ∈ c1 :: rtl.takeWhile (fun s => s.1.y = c1.1.y),
          a.1.y = c1.1.y := by
        intro a ha
        rcases List.mem_cons.mp ha with h | h
        · subst h; rfl
        · have := List.mem_takeWhile_imp h
          simpa using this
      -- dedupAdj splits off the chunk years
      have hsplit_tw : c1 :: rtl =
          (c1 :: rtl.takeWhile (fun s => s.1.y = c1.1.y)) ++
            rtl.dropWhile (fun s => s.1.y = c1.1.y) := by
        conv_lhs => rw [← List.takeWhile_append_dropWhile
          (p := fun s => decide (s.1.y = c1.1.y)) (l := c1 :: rtl)]
        rw [hchunk_cons, hrest2_eq, List.cons_append]
      have hrest2_gt : ∀ b ∈ rtl.dropWhile (fun s => s.1.y = c1.1.y), c1.1.y < b.1.y := by
        intro b hb
        cases hzz : rtl.dropWhile (fun s => s.1.y = c1.1.y) with
        | nil => rw [hzz] at hb; cases hb
        | cons z zt =>
          rw [hzz] at hb
          have hzy : z.1.y ≠ c1.1.y := by
            have := dropWhile_head_false _ _ _ _ hzz
            simpa using this
          have hzmem : z ∈ rtl :=
            (List.dropWhile_sublist _).mem (by rw [hzz]; simp)
          have hzge : c1.1.y ≤ z.1.y := (List.pairwise_cons.mp hpw_rest).1 z hzmem
          have hzgt : c1.1.y < z.1.y := lt_of_le_of_ne hzge (fun h => hzy h.symm)
          rcases List.mem_cons.mp hb with h | h
          · subst h; exact hzgt
          · have hpw2 : (z :: zt).Pairwise (fun a b => a.1.y ≤ b.1.y) := by
              rw [← hzz]
              exact List.Pairwise.sublist (List.dropWhile_sublist _)
                (List.Pairwise.sublist (List.sublist_cons_self c1 rtl) hpw_rest)
            exact lt_of_lt_of_le hzgt ((List.pairwise_cons.mp hpw2).1 b h)
      have hdedup : dedupAdj ((c1 :: rtl).map (fun r => r.1.y)) =
          c1.1.y :: dedupAdj ((rtl.dropWhile (fun s => s.1.y = c1.1.y)).map
            (fun r => r.1.y)) := by
        conv_lhs => rw [hsplit_tw]
        rw [List.map_append]
        refine dedupAdj_block c1.1.y _ _ ?_ (by simp) ?_
        · intro a ha
          rw [List.mem_map] at ha
          obtain ⟨r, hr, hra⟩ := ha
          rw [← hra]
          exact hchunk_years r hr
        · cases hzz : rtl.dropWhile (fun s => s.1.y = c1.1.y) with
          | nil => left; rfl
          | cons z zt =>
            right
            refine ⟨z.1.y, zt.map (fun r => r.1.y), by simp, ?_⟩
            have := dropWhile_head_false _ _ _ _ hzz
            simpa using this
      have hsorted2 : (done ++ c1 :: rtl).Pairwise (fun a b => a.1.dayNum < b.1.dayNum) := by
        rw [← hsplit]
        exact hsorted
      have hpre : rowsAll.filter (fun r => r.1.dayNum ≤ c1.1.dayNum) = done ++ [c1] := by
        rw [hsplit]
        exact filter_le_first done c1 rtl hsorted2
      have hsorted_rest : (c1 :: rtl).Pairwise (fun a b => a.1.dayNum < b.1.dayNum) :=
        List.Pairwise.sublist (List.sublist_append_right _ _) hsorted2
      have hmin : ((rtl.takeWhile (fun s => s.1.y = c1.1.y)).map (fun r => r.1)).foldl
          minDate c1.1 = c1.1 := by
        apply foldl_minDate_eq
        intro b hb
        rw [List.mem_map] at hb
        obtain ⟨r, hr, hrb⟩ := hb
        have hrmem : r ∈ rtl := (List.takeWhile_sublist _).mem hr
        have := (List.pairwise_cons.mp hsorted_rest).1 r hrmem
        rw [← hrb]
        omega
      have hsl : secondLast (done ++ [c1]) = some pr := by
        unfold secondLast
        rw [List.dropLast_concat]
        exact hpr
      have hprmem : pr ∈ rowsAll := by
        rw [hsplit]
        exact List.mem_append_left _ (List.mem_of_mem_getLast? hpr)
      obtain ⟨qpr, hqpr, hqprne⟩ := hfin pr hprmem
      have hne0 : pfNe0 pr.2 = true := by
        rw [hqpr]
        simp [pfNe0, hqprne]
      have hchunk_sub : (c1 :: rtl.takeWhile (fun s => s.1.y = c1.1.y)).Sublist (c1 :: rtl) :=
        List.Sublist.cons₂ c1 (List.takeWhile_sublist _)
      have hendmem : (c1 :: rtl.takeWhile (fun s => s.1.y = c1.1.y)).getLast (by simp) ∈
          rowsAll := by
        rw [hsplit]
        exact List.mem_append_right _ (hchunk_sub.mem (List.getLast_mem _))
      obtain ⟨qe, hqe, _⟩ := hfin _ hendmem
      have hendna : pfIsNa ((c1 :: rtl.takeWhile (fun s => s.1.y = c1.1.y)).getLast
          (by simp)).2 = false := by
        rw [hqe]
        rfl
      have hentry : annualEntry rowsAll (done.drop 1 ++ c1 :: rtl) c1.1.y =
          some (c1.1.y, fmtPercent (pfSub (pfDiv
            ((c1 :: rtl.takeWhile (fun s => s.1.y = c1.1.y)).getLast (by simp)).2
            pr.2) 1)) := by
        unfold annualEntry
        rw [hgrp]
        simp only [hmin, hpre, hsl]
        rw [if_pos ⟨hne0, hendna⟩]
      have hlen2 : (rtl.dropWhile (fun s => s.1.y = c1.1.y)).length ≤ n := by
        have h1 := (List.dropWhile_sublist
          (p := fun s => decide (s.1.y = c1.1.y)) (l := rtl)).length_le
        have h2 : (c1 :: rtl).length ≤ n + 1 := hlen
        simp only [List.length_cons] at h2
        omega
      have hsplit2 : rowsAll =
          (done ++ c1 :: rtl.takeWhile (fun s => s.1.y = c1.1.y)) ++
            rtl.dropWhile (fun s => s.1.y = c1.1.y) := by
        rw [hsplit, List.append_assoc, ← hsplit_tw]
      have hyear2 : (((done ++ c1 :: rtl.takeWhile (fun s => s.1.y = c1.1.y)).drop 1 ++
          rtl.dropWhile (fun s => s.1.y = c1.1.y)).Pairwise
            (fun a b => a.1.y ≤ b.1.y)) := by
        rw [drop_one_append _ _ hne, List.append_assoc, ← hsplit_tw]
        exact hyear
      have hlt2 : ∀ a ∈ (done ++ c1 :: rtl.takeWhile (fun s => s.1.y = c1.1.y)).drop 1,
          ∀ b ∈ rtl.dropWhile (fun s => s.1.y = c1.1.y), a.1.y < b.1.y := by
        intro a ha b hb
        rw [drop_one_append _ _ hne, List.mem_append] at ha
        rcases ha with ha | ha
        · refine hlt a ha b ?_
          exact List.mem_cons_of_mem c1 ((List.dropWhile_sublist _).mem hb)
        · rw [hchunk_years a ha]
          exact hrest2_gt b hb
      have hpr2 : (done ++ c1 :: rtl.takeWhile (fun s => s.1.y = c1.1.y)).getLast? =
          some ((c1 :: rtl.takeWhile (fun s => s.1.y = c1.1.y)).getLast (by simp)) := by
        rw [List.getLast?_append_of_ne_nil _ (by simp)]
        exact List.getLast?_eq_getLast _ (by simp)
      have hih := ih (rtl.dropWhile (fun s => s.1.y = c1.1.y))
        (done ++ c1 :: rtl.takeWhile (fun s => s.1.y = c1.1.y))
        ((c1 :: rtl.takeWhile (fun s => s.1.y = c1.1.y)).getLast (by simp))
        hlen2 hsplit2 (by simp) hyear2 hlt2 hpr2
      rw [hdedup, List.filterMap_cons, hentry]
      conv_rhs => rw [chunksAnnual]
      simp only [hchunk_cons, hrest2_eq]
      rw [getLastD_cons_eq_getLast]
      congr 1
      rw [← hih]
      congr 1
      rw [drop_one_append _ _ hne, List.append_assoc, ← hsplit_tw]

/-- Claim C6: for every chronologically sorted monthly table with finite
nonzero `Portfolio Value`s and the synthetic baseline 1.0 at row 0, each
reported annual return is `PV(last row of the year) / PV(row just before
the first row of the year) - 1` — positionally, the closing value of
each contiguous year chunk over the closing value of the preceding chunk
— and the very first year's divisor is the baseline 1.0. -/
theorem c6_annual_returns (df : DFrame)
    (h2 : 2 ≤ df.dates.length)
    (hlenpv : df.pv.length = df.dates.length)
    (hsorted : df.dates.Pairwise (fun a b => a.dayNum < b.dayNum))
    (hyears : df.dates.Pairwise (fun a b => a.y ≤ b.y))
    (hfin : ∀ x ∈ df.pv, ∃ q, x = PF.num q ∧ q ≠ 0)
    (hpv0 : df.pv.head? = some (PF.num 1)) :
    (calculate_metrics (some df)).1.annual_returns =
      chunksAnnual (PF.num 1) ((df.dates.zip df.pv).drop 1) := by
  have hproj : (calculate_metrics (some df)).1.annual_returns =
      annualReturns df.dates df.pv := by
    simp only [calculate_metrics, if_neg (by omega : ¬ df.dates.length < 2)]
  rw [hproj]
  have hmapfst : (df.dates.zip df.pv).map Prod.fst = df.dates :=
    List.map_fst_zip _ _ (le_of_eq hlenpv.symm)
  have hzip_sorted : (df.dates.zip df.pv).Pairwise
      (fun a b => a.1.dayNum < b.1.dayNum) := by
    have h := hsorted
    rw [← hmapfst] at h
    have h3 := List.pairwise_map.mp h
    exact h3
  have hzip_years : (df.dates.zip df.pv).Pairwise (fun a b => a.1.y ≤ b.1.y) := by
    have h := hyears
    rw [← hmapfst] at h
    have h3 := List.pairwise_map.mp h
    exact h3
  have hzip_fin : ∀ r ∈ df.dates.zip df.pv, ∃ q, r.2 = PF.num q ∧ q ≠ 0 := by
    intro r hr
    obtain ⟨a, b⟩ := r
    exact hfin b (List.of_mem_zip hr).2
  have hcalc_years : ((df.dates.zip df.pv).drop 1).Pairwise
      (fun a b => a.1.y ≤ b.1.y) :=
    List.Pairwise.sublist (List.drop_sublist _ _) hzip_years
  obtain ⟨d0, dtl, hd⟩ : ∃ d0 dtl, df.dates = d0 :: dtl := by
    cases h : df.dates with
    | nil => rw [h] at h2; simp at h2
    | cons a t => exact ⟨a, t, rfl⟩
  obtain ⟨v0, vtl, hp⟩ : ∃ v0 vtl, df.pv = v0 :: vtl := by
    cases h : df.pv with
    | nil => rw [h] at hpv0; cases hpv0
    | cons a t => exact ⟨a, t, rfl⟩
  have hv0 : v0 = PF.num 1 := by
    rw [hp] at hpv0
    injection hpv0
  have hzipcons : df.dates.zip df.pv = (d0, v0) :: dtl.zip vtl := by
    rw [hd, hp]
    rfl
  have hloop := annual_loop (df.dates.zip df.pv) hzip_sorted hzip_fin
    (dtl.zip vtl).length (dtl.zip vtl) [(d0, v0)] (d0, v0) (le_refl _)
    (by rw [hzipcons]; rfl) (by simp)
    (by
      have h := hcalc_years
      rw [hzipcons] at h
      simpa using h)
    (by intro a ha; simp at ha)
    rfl
  unfold annualReturns sortedDistinct
  show List.filterMap (annualEntry (df.dates.zip df.pv) ((df.dates.zip df.pv).drop 1))
      (dedupAdj (sortInts (((df.dates.zip df.pv).drop 1).map (fun r => r.1.y)))) =
    chunksAnnual (PF.num 1) ((df.dates.zip df.pv).drop 1)
  rw [sortInts_sorted_id _ (List.pairwise_map.mpr hcalc_years)]
  have hdrop : (df.dates.zip df.pv).drop 1 = dtl.zip vtl := by
    rw [hzipcons]
    rfl
  rw [hdrop, ← hv0, ← hloop]
  rfl

/-- Claim C6 witness: the theorem at the concrete five-row table. -/
theorem c6_witness :
    (calculate_metrics (some tblDD)).1.annual_returns =
      chunksAnnual (PF.num 1) ((tblDD.dates.zip tblDD.pv).drop 1) :=
  c6_annual_returns tblDD (by decide) (by decide)
    (by with_unfolding_all decide) (by decide)
    (by
      intro x hx
      simp only [tblDD, List.mem_cons, List.not_mem_nil, or_false] at hx
      rcases hx with h | h | h | h | h <;> subst h <;>
        exact ⟨_, rfl, by norm_num⟩)
    rfl
